import Mathlib

set_option autoImplicit false

deriving instance DecidableEq for Except

/-
Verification of the FolderChecksum core: the classifier worker
(fileCheckWorker), the serialized catalog reconciler (dbUpdateWorker with
mustHandleDeletedFiles and verifyStats), and the SQLite-backed catalog
operations (db.go: mustInsertFile, mustUpdateAndMarkFile, mustMarkFile,
mustQueryFile, mustQueryUnvisitedFiles, mustDeleteUnvisitedFile,
mustDeleteUnvisitedFiles, mustClearVisitedFlag, mustClearVisitedFlags).

The catalog is modelled as a list of rows; SQL statements are modelled by
the list transformations they perform, including SQLite's default LIKE
semantics (ASCII-case-insensitive, with ESCAPE '\').  Fatal errors
(logFatal, failed row-count assertions) are modelled with Except.  The
concurrent pipeline of main.go is modelled by its deterministic sequential
skeleton: the classifier phase reads the catalog as of the start of the
run and produces a command stream, the "D" sweep commands are appended
after all classifier commands, and the reconciler folds over the stream
in order before verifying statistics and committing or rolling back.
-/

/-
Section 1: SQLite LIKE pattern matching with ESCAPE, and the escaping
performed by escapeForLike (db.go).
-/

/-- Folds an ASCII upper-case letter to the corresponding lower-case
letter and leaves every other character unchanged.  This is the case
folding SQLite's default (case-insensitive) LIKE comparison applies to
characters below 0x80. -/
def lowerAscii (c : Char) : Char :=
  if 'A' ≤ c ∧ c ≤ 'Z' then Char.ofNat (c.toNat + 32) else c

/-- Character comparison used by SQLite's default LIKE: equal after ASCII
case folding. -/
def charLikeEq (a b : Char) : Bool :=
  lowerAscii a == lowerAscii b

/-- SQLite LIKE matching with ESCAPE '\' (the pattern operator used by
mustQueryUnvisitedFiles, mustDeleteUnvisitedFiles and
mustClearVisitedFlags in db.go): '%' matches any sequence of characters,
'_' matches any single character, a backslash escapes the next pattern
character, and plain characters compare ASCII-case-insensitively.  The
'%' case tries every suffix of the remaining string, which is equivalent
to the retry loop of SQLite's patternCompare. -/
def likeMatch : List Char → List Char → Bool
  | [], s => s.isEmpty
  | c :: ps, s =>
    if c = '%' then
      s.tails.any fun t => likeMatch ps t
    else if c = '\\' then
      match ps, s with
      | c2 :: ps2, c3 :: s2 => charLikeEq c2 c3 && likeMatch ps2 s2
      | _, _ => false
    else if c = '_' then
      match s with
      | [] => false
      | _ :: s2 => likeMatch ps s2
    else
      match s with
      | [] => false
      | c2 :: s2 => charLikeEq c c2 && likeMatch ps s2

/-- Replaces every occurrence of the character c by the character list r;
models one strings.ReplaceAll pass with a single-character search
pattern. -/
def replaceAllChar (c : Char) (r : List Char) : List Char → List Char
  | [] => []
  | x :: xs => (if x = c then r else [x]) ++ replaceAllChar c r xs

/-- escapeForLike (db.go): three sequential ReplaceAll passes that escape
backslash, percent and underscore for use in a LIKE pattern with
ESCAPE '\'. -/
def escapeForLike (s : List Char) : List Char :=
  replaceAllChar '_' ['\\', '_']
    (replaceAllChar '%' ['\\', '%']
      (replaceAllChar '\\' ['\\', '\\'] s))

/-- Per-character effect of escapeForLike. -/
def escChar (c : Char) : List Char :=
  if c = '\\' ∨ c = '%' ∨ c = '_' then ['\\', c] else [c]

/-- ASCII-case-insensitive prefix test on character lists. -/
def ciPrefixOf (p s : List Char) : Bool :=
  (p.map lowerAscii).isPrefixOf (s.map lowerAscii)

/-
Section 2: the ordering behind ORDER BY path ASC.  SQLite's BINARY
collation orders TEXT values by their UTF-8 bytes, and UTF-8 byte order
coincides with code-point order, so the order is modelled as the
lexicographic order on the paths' characters.
-/

def charListLe : List Char → List Char → Bool
  | [], _ => true
  | _ :: _, [] => false
  | a :: as, b :: bs =>
    decide (a.toNat < b.toNat) || (decide (a = b) && charListLe as bs)

theorem charListLe_refl (a : List Char) : charListLe a a = true := by
  induction a with
  | nil => rfl
  | cons x xs ih => simp [charListLe, ih]

theorem charListLe_total (a : List Char) :
    ∀ b : List Char, charListLe a b = true ∨ charListLe b a = true := by
  induction a with
  | nil => intro b; left; rfl
  | cons x xs ih =>
    intro b
    cases b with
    | nil => right; rfl
    | cons y ys =>
      rcases Nat.lt_trichotomy x.toNat y.toNat with h | h | h
      · left; simp [charListLe, h]
      · have hxy : x = y := by
          rw [← Char.ofNat_toNat x, ← Char.ofNat_toNat y, h]
        subst hxy
        rcases ih ys with h2 | h2
        · left; simp [charListLe, h2]
        · right; simp [charListLe, h2]
      · right; simp [charListLe, h]

theorem charListLe_trans (a : List Char) :
    ∀ b c : List Char, charListLe a b = true → charListLe b c = true →
      charListLe a c = true := by
  induction a with
  | nil => intro b c _ _; rfl
  | cons x xs ih =>
    intro b c hab hbc
    cases b with
    | nil => simp [charListLe] at hab
    | cons y ys =>
      cases c with
      | nil => simp [charListLe] at hbc
      | cons z zs =>
        simp only [charListLe, Bool.or_eq_true, Bool.and_eq_true,
          decide_eq_true_eq] at hab hbc ⊢
        rcases hab with h1 | ⟨h1, h1r⟩
        · rcases hbc with h2 | ⟨h2, h2r⟩
          · left; omega
          · subst h2; left; exact h1
        · subst h1
          rcases hbc with h2 | ⟨h2, h2r⟩
          · left; exact h2
          · subst h2; right; exact ⟨rfl, ih _ _ h1r h2r⟩

theorem charListLe_antisymm (a : List Char) :
    ∀ b : List Char, charListLe a b = true → charListLe b a = true → a = b := by
  induction a with
  | nil =>
    intro b _ hba
    cases b with
    | nil => rfl
    | cons y ys => simp [charListLe] at hba
  | cons x xs ih =>
    intro b hab hba
    cases b with
    | nil => simp [charListLe] at hab
    | cons y ys =>
      simp only [charListLe, Bool.or_eq_true, Bool.and_eq_true,
        decide_eq_true_eq] at hab hba
      rcases hab with h1 | ⟨h1, h1r⟩
      · rcases hba with h2 | ⟨h2, h2r⟩
        · omega
        · subst h2; omega
      · subst h1
        rcases hba with h2 | ⟨h2, h2r⟩
        · omega
        · rw [ih ys h1r h2r]

/-
Section 3: the catalog.  One row of the files table (path TEXT PRIMARY
KEY, size INT, checksum TEXT NULL, visited BIT), and the operations of
db.go, each modelled by the effect of its SQL statement.  Fatal errors
(failed row-count assertions, constraint violations) are modelled with
Except.
-/

structure fileRow where
  path : String
  size : Int
  checksum : Option String
  visited : Bool

deriving DecidableEq, Repr

structure fileInfo where
  relPath : String
  size : Int
  checksum : String

deriving DecidableEq, Repr

abbrev Db := List fileRow

/-- Ordering of rows by path, as produced by ORDER BY path ASC. -/
def rowLe (a b : fileRow) : Prop := charListLe a.path.data b.path.data = true

instance rowLe.dec : DecidableRel rowLe := fun _ _ => Bool.decEq _ true

instance rowLe.total : IsTotal fileRow rowLe :=
  ⟨fun a b => charListLe_total a.path.data b.path.data⟩

instance rowLe.trans : IsTrans fileRow rowLe :=
  ⟨fun _ _ _ h1 h2 => charListLe_trans _ _ _ h1 h2⟩

def sortByPath (db : Db) : Db := List.insertionSort rowLe db

def dbFind (db : Db) (path : String) : Option fileRow :=
  db.find? fun r => r.path == path

/-- mustQueryFile: SELECT size, checksum FROM files WHERE path=?.  A NULL
checksum is read back as the empty string; the row's visited flag is
returned alongside, absent rows give none. -/
def mustQueryFile (db : Db) (relPath : String) : Option (fileInfo × Bool) :=
  match dbFind db relPath with
  | none => none
  | some r => some (⟨relPath, r.size, r.checksum.getD ""⟩, r.visited)

/-- Stored form of a checksum string: mustInsertFile and
mustUpdateAndMarkFile bind NULL when the checksum is the empty string. -/
def storedChecksum (c : String) : Option String :=
  if c == "" then none else some c

/-- mustInsertFile: INSERT INTO files(path, size, checksum, visited)
VALUES(?, ?, ?, 1); a UNIQUE-constraint violation on the path is fatal
and exactly one affected row is asserted. -/
def mustInsertFile (db : Db) (file : fileInfo) : Except String Db :=
  if (db.filter fun r => r.path == file.relPath).length == 0 then
    .ok (db ++ [⟨file.relPath, file.size, storedChecksum file.checksum, true⟩])
  else
    .error "insert: UNIQUE constraint failed"

/-- mustUpdateAndMarkFile: UPDATE files SET size=?, checksum=?, visited=1
WHERE path=?; asserts exactly one affected row. -/
def mustUpdateAndMarkFile (db : Db) (file : fileInfo) : Except String Db :=
  if (db.filter fun r => r.path == file.relPath).length == 1 then
    .ok (db.map fun r =>
      if r.path == file.relPath then
        { r with size := file.size, checksum := storedChecksum file.checksum,
                 visited := true }
      else r)
  else
    .error "update: RowsAffected should be 1"

/-- mustMarkFile: UPDATE files SET visited=1 WHERE path=? AND visited=0;
asserts exactly one affected row, so marking an absent path or a path
whose row is already visited is fatal. -/
def mustMarkFile (db : Db) (relPath : String) : Except String Db :=
  if (db.filter fun r => r.path == relPath && !r.visited).length == 1 then
    .ok (db.map fun r =>
      if r.path == relPath && !r.visited then { r with visited := true } else r)
  else
    .error "mark: RowsAffected should be 1"

/-- The LIKE test performed by the prefix-range statements of db.go: the
bound pattern is escapeForLike(prefix) ++ "%" with ESCAPE '\'.  The
callers always pass either the empty prefix or a prefix ending in '/'
(asserted in db.go). -/
def likeHit (pfx : String) (path : String) : Bool :=
  likeMatch (escapeForLike pfx.data ++ ['%']) path.data

/-- mustQueryUnvisitedFiles: SELECT path, size, checksum FROM files WHERE
path LIKE ? ESCAPE '\' AND visited=0 ORDER BY path ASC, with a NULL
checksum read back as the empty string. -/
def mustQueryUnvisitedFiles (db : Db) (pfx : String) : List fileInfo :=
  (sortByPath (db.filter fun r => likeHit pfx r.path && !r.visited)).map
    fun r => ⟨r.path, r.size, r.checksum.getD ""⟩

/-- mustDeleteUnvisitedFiles: DELETE FROM files WHERE path LIKE ? ESCAPE
'\' AND visited=0; asserts that the number of affected rows equals
expectN. -/
def mustDeleteUnvisitedFiles (db : Db) (pfx : String) (expectN : Int) :
    Except String Db :=
  if (((db.filter fun r => likeHit pfx r.path && !r.visited).length : Int)
      == expectN) then
    .ok (db.filter fun r => !(likeHit pfx r.path && !r.visited))
  else
    .error "delete: RowsAffected mismatch"

/-- mustDeleteUnvisitedFile: DELETE FROM files WHERE path=? AND
visited=0; asserts exactly one affected row. -/
def mustDeleteUnvisitedFile (db : Db) (relPath : String) : Except String Db :=
  if (db.filter fun r => r.path == relPath && !r.visited).length == 1 then
    .ok (db.filter fun r => !(r.path == relPath && !r.visited))
  else
    .error "delete: RowsAffected should be 1"

/-- mustClearVisitedFlag: UPDATE files SET visited=0 WHERE path=? AND
visited=1 (no row-count assertion). -/
def mustClearVisitedFlag (db : Db) (relPath : String) : Db :=
  db.map fun r =>
    if r.path == relPath && r.visited then { r with visited := false } else r

/-- mustClearVisitedFlags: UPDATE files SET visited=0 WHERE path LIKE ?
ESCAPE '\' AND visited=1, returning the number of affected rows. -/
def mustClearVisitedFlags (db : Db) (pfx : String) : Db × Int :=
  (db.map fun r =>
    if likeHit pfx r.path && r.visited then { r with visited := false } else r,
   ((db.filter fun r => likeHit pfx r.path && r.visited).length : Int))

/-
Section 4: the classifier worker (fileCheckWorker in worker.go).  One
loop iteration of the worker is modelled as a pure function of the
catalog as of the start of the run, the configuration, and a digest
oracle.  The digest oracle models a successful mustCalcFileMd5 read of
the file at rootDir/relPath; the fatal size-mismatch check of
mustCalcChecksum is outside the scope of the modelled claims.
-/

structure config where
  sizeOnly : Bool
  update : Bool
  excludeRe : String → Bool
  includeRe : String → Bool

/-- shouldExcludePath (worker.go): excluded iff the exclude regex matches
and the include regex does not. -/
def shouldExcludePath (cfg : config) (relPath : String) : Bool :=
  cfg.excludeRe relPath && !(cfg.includeRe relPath)

structure fileCheckMsg where
  relPath : String
  size : Int

deriving DecidableEq, Repr

structure dbUpdateMsg where
  opType : String
  info : fileInfo

deriving DecidableEq, Repr

/-- mustCalcChecksum (worker.go): returns the empty string in size-only
mode, otherwise the digest of the file's content. -/
def mustCalcChecksum (digest : String → String) (relPath : String)
    (sizeOnly : Bool) : String :=
  if sizeOnly then "" else digest relPath

inductive checkResult where
  | skipped
  | newFile
  | changedFile
  | unchangedFile

deriving DecidableEq, Repr

structure stepOut where
  res : checkResult
  cmd : Option dbUpdateMsg

deriving DecidableEq, Repr

/-- One iteration of fileCheckWorker's loop: classify the discovered file
against the catalog and emit at most one reconciliation command. -/
def checkOneFile (cfg : config) (db : Db) (digest : String → String)
    (msg : fileCheckMsg) : stepOut :=
  if shouldExcludePath cfg msg.relPath then
    ⟨.skipped, none⟩
  else
    match mustQueryFile db msg.relPath with
    | none =>
      ⟨.newFile,
        if cfg.update then
          some ⟨"I", ⟨msg.relPath, msg.size,
            mustCalcChecksum digest msg.relPath cfg.sizeOnly⟩⟩
        else none⟩
    | some (infoInDb, _) =>
      if infoInDb.size != msg.size then
        ⟨.changedFile,
          if cfg.update then
            some ⟨"U", ⟨msg.relPath, msg.size,
              mustCalcChecksum digest msg.relPath cfg.sizeOnly⟩⟩
          else some ⟨"M", ⟨msg.relPath, msg.size, ""⟩⟩⟩
      else if cfg.sizeOnly then
        ⟨.unchangedFile,
          if (infoInDb.checksum != "") && cfg.update then
            some ⟨"U", ⟨msg.relPath, msg.size, ""⟩⟩
          else some ⟨"M", ⟨msg.relPath, msg.size, ""⟩⟩⟩
      else
        let ck := mustCalcChecksum digest msg.relPath cfg.sizeOnly
        if infoInDb.checksum == ck then
          ⟨.unchangedFile, some ⟨"M", ⟨msg.relPath, msg.size, ck⟩⟩⟩
        else
          ⟨.changedFile,
            if cfg.update then some ⟨"U", ⟨msg.relPath, msg.size, ck⟩⟩
            else some ⟨"M", ⟨msg.relPath, msg.size, ck⟩⟩⟩

structure runStats where
  numFilesNew : Int
  numFilesChanged : Int
  numFilesDeleted : Int
  numFilesUnchanged : Int
  numVisitedFlagsCleared : Int

deriving DecidableEq, Repr

def clearStats : runStats := ⟨0, 0, 0, 0, 0⟩

/-- Result-stream lines written by a classification outcome: outputNewFile
and outputChangedFile print a line, outputUnchangedFile and a skipped
file print nothing to the result stream. -/
def stepLines (msg : fileCheckMsg) (r : checkResult) : List String :=
  match r with
  | .newFile => ["new: " ++ msg.relPath]
  | .changedFile => ["changed: " ++ msg.relPath]
  | _ => []

/-- Counter increments performed by the output helpers of worker.go. -/
def stepStats (st : runStats) (r : checkResult) : runStats :=
  match r with
  | .skipped => st
  | .newFile => { st with numFilesNew := st.numFilesNew + 1 }
  | .changedFile => { st with numFilesChanged := st.numFilesChanged + 1 }
  | .unchangedFile => { st with numFilesUnchanged := st.numFilesUnchanged + 1 }

structure workerOut where
  lines : List String
  stats : runStats
  cmds : List dbUpdateMsg

deriving DecidableEq, Repr

/-- The classifier phase over the whole discovery stream, in a canonical
sequential schedule: lines and commands appear in discovery order. -/
def workerPhase (cfg : config) (db : Db) (digest : String → String) :
    List fileCheckMsg → workerOut
  | [] => ⟨[], clearStats, []⟩
  | m :: ms =>
    let s := checkOneFile cfg db digest m
    let rest := workerPhase cfg db digest ms
    ⟨stepLines m s.res ++ rest.lines, stepStats rest.stats s.res,
     s.cmd.toList ++ rest.cmds⟩

/-
Section 5: the reconciler (dbUpdateWorker and mustHandleDeletedFiles in
worker.go), the invariant verifier (verifyStats), and the run pipeline
of main.go in its sequential skeleton.
-/

structure txState where
  tx : Db
  lines : List String
  stats : runStats

deriving DecidableEq, Repr

/-- Reporting of stale entries: each is printed as a deleted line and
counted by outputDeletedFile. -/
def addDeletedLines (s : txState) (files : List fileInfo) : txState :=
  { s with
    lines := s.lines ++ files.map fun f => "deleted: " ++ f.relPath,
    stats := { s.stats with numFilesDeleted :=
      s.stats.numFilesDeleted + (files.length : Int) } }

/-- The second half of mustHandleDeletedFiles: the range part over
prefix ++ "/", entered with the count n0 of reported entries not yet
deleted (always zero when persistence is requested, because the exact
entry is deleted immediately and the counter reset). -/
def handleScopeRange (cfg : config) (t : txState) (pfx : String)
    (n0 : Int) : Except String txState := do
  let reported := mustQueryUnvisitedFiles t.tx (pfx ++ "/")
  let s2 := addDeletedLines t reported
  if cfg.update then do
    let tx3 ← mustDeleteUnvisitedFiles s2.tx (pfx ++ "/")
      (n0 + (reported.length : Int))
    let cleared := mustClearVisitedFlags tx3 (pfx ++ "/")
    .ok { s2 with
          tx := cleared.fst,
          stats := { s2.stats with numVisitedFlagsCleared :=
            s2.stats.numVisitedFlagsCleared + cleared.snd } }
  else .ok s2

/-- mustHandleDeletedFiles (worker.go): report every still-unvisited entry
in the scope as deleted; when persistence is requested also delete those
rows (asserting the count) and clear the visited flag of the remaining
visited rows in the scope.  A non-empty prefix is first checked exactly,
then its descendants are processed with the range pattern prefix ++ "/";
a prefix with a trailing slash is a fatal error. -/
def mustHandleDeletedFiles (cfg : config) (s : txState) (pfx : String) :
    Except String txState :=
  if pfx == "" then
    let reported := mustQueryUnvisitedFiles s.tx ""
    let s1 := addDeletedLines s reported
    if cfg.update then do
      let tx2 ← mustDeleteUnvisitedFiles s1.tx "" (reported.length : Int)
      let cleared := mustClearVisitedFlags tx2 ""
      .ok { s1 with
            tx := cleared.fst,
            stats := { s1.stats with numVisitedFlagsCleared :=
              s1.stats.numVisitedFlagsCleared + cleared.snd } }
    else .ok s1
  else if pfx.data.getLast? == some '/' then
    .error "prefix has a trailing slash"
  else do
    let step1 : Except String (txState × Int) :=
      match mustQueryFile s.tx pfx with
      | none => .ok (s, 0)
      | some (f, visited) =>
        if visited then
          if cfg.update then
            .ok ({ s with
                   tx := mustClearVisitedFlag s.tx pfx,
                   stats := { s.stats with numVisitedFlagsCleared :=
                     s.stats.numVisitedFlagsCleared + 1 } }, 0)
          else .ok (s, 0)
        else
          let s1 := addDeletedLines s [f]
          if cfg.update then do
            let tx2 ← mustDeleteUnvisitedFile s1.tx pfx
            .ok ({ s1 with tx := tx2 }, 0)
          else .ok (s1, 1)
    let r1 ← step1
    handleScopeRange cfg r1.fst pfx r1.snd

/-- One step of dbUpdateWorker's loop: dispatch on the string-typed
operation tag. -/
def applyDbUpdateMsg (cfg : config) (s : txState) (msg : dbUpdateMsg) :
    Except String txState :=
  if msg.opType == "I" then
    (mustInsertFile s.tx msg.info).map fun tx2 => { s with tx := tx2 }
  else if msg.opType == "U" then
    (mustUpdateAndMarkFile s.tx msg.info).map fun tx2 => { s with tx := tx2 }
  else if msg.opType == "M" then
    (mustMarkFile s.tx msg.info.relPath).map fun tx2 => { s with tx := tx2 }
  else if msg.opType == "D" then
    mustHandleDeletedFiles cfg s msg.info.relPath
  else .error "Unknown opType"

/-- The reconciler consumes its queue strictly first-in-first-out. -/
def processMsgs (cfg : config) : txState → List dbUpdateMsg →
    Except String txState
  | s, [] => .ok s
  | s, m :: ms => do processMsgs cfg (← applyDbUpdateMsg cfg s m) ms

/-- verifyStats (worker.go): with persistence the number of visited-flag
clears must equal new + changed + unchanged; without persistence it must
be zero.  A violation is fatal. -/
def verifyStats (cfg : config) (st : runStats) : Bool :=
  if cfg.update then
    st.numVisitedFlagsCleared ==
      st.numFilesNew + st.numFilesChanged + st.numFilesUnchanged
  else
    st.numVisitedFlagsCleared == 0

/-- dbUpdateWorker: drain the whole queue inside one transaction, then
verify the statistics, then commit when persistence is requested or roll
the transaction back (leaving the catalog as it was) otherwise.  The
returned catalog is the committed one, or the untouched original. -/
def dbUpdateWorker (cfg : config) (db0 : Db) (lines0 : List String)
    (stats0 : runStats) (msgs : List dbUpdateMsg) :
    Except String (Db × txState) := do
  let s ← processMsgs cfg ⟨db0, lines0, stats0⟩ msgs
  if verifyStats cfg s.stats then
    .ok (if cfg.update then s.tx else db0, s)
  else
    .error "stats inconsistent"

/-- The end-of-scope signals of main.go: one "D" message per requested
scope, or a single unscoped one when no scope was requested, all sent
after the classifier pool has drained. -/
def sweepMsgs (pfxs : List String) : List dbUpdateMsg :=
  if pfxs.isEmpty then [⟨"D", ⟨"", 0, ""⟩⟩]
  else pfxs.map fun p => ⟨"D", ⟨p, 0, ""⟩⟩

/-- The whole run of main.go in its sequential skeleton: classifier phase
over the pre-run catalog, then the reconciler over the classifier
commands followed by the sweep signals. -/
def runPipeline (cfg : config) (db0 : Db) (digest : String → String)
    (files : List fileCheckMsg) (pfxs : List String) :
    Except String (Db × txState) :=
  let w := workerPhase cfg db0 digest files
  dbUpdateWorker cfg db0 w.lines w.stats (w.cmds ++ sweepMsgs pfxs)

/-
Section 6: per-path reasoning about the catalog.  The path column is the
primary key, so a well-formed catalog has pairwise-distinct paths and
every operation is characterized by its effect on dbFind.
-/

def dbPaths (db : Db) : List String := db.map fun r => r.path

def dbNodup (db : Db) : Prop := (dbPaths db).Nodup

/-- Ordering of paths, as Strings, by the byte order of the catalog. -/
def strLe (a b : String) : Prop := charListLe a.data b.data = true

instance strLe.dec : DecidableRel strLe := fun _ _ => Bool.decEq _ true

instance strLe.total : IsTotal String strLe :=
  ⟨fun a b => charListLe_total a.data b.data⟩

instance strLe.trans : IsTrans String strLe :=
  ⟨fun _ _ _ h1 h2 => charListLe_trans _ _ _ h1 h2⟩

instance strLe.antisymm : IsAntisymm String strLe :=
  ⟨fun _ _ h1 h2 => String.ext (charListLe_antisymm _ _ h1 h2)⟩

/-- The paths reported by mustQueryUnvisitedFiles. -/
def queryPaths (db : Db) (pfx : String) : List String :=
  (mustQueryUnvisitedFiles db pfx).map fun f => f.relPath

/-
Per-operation characterizations, on a well-formed catalog.
-/

def allUnvisited (db : Db) : Prop := ∀ r ∈ db, r.visited = false

/-- The row transformation of the UPDATE statement of
mustUpdateAndMarkFile. -/
def updRow (f : fileInfo) (rr : fileRow) : fileRow :=
  if rr.path == f.relPath then
    { rr with
      size := f.size,
      checksum := storedChecksum f.checksum,
      visited := true }
  else rr

/-- The row transformation of the UPDATE statement of mustMarkFile. -/
def markRow (p : String) (rr : fileRow) : fileRow :=
  if rr.path == p && !rr.visited then { rr with visited := true } else rr

/-- Whether the sweep of a scope affects a path: the exact entry at the
scope, or a path matching the range pattern scope ++ "/" under LIKE; the
empty scope affects everything. -/
def sweepAffects (pfx x : String) : Bool :=
  if pfx == "" then true else x == pfx || likeHit (pfx ++ "/") x

/-- Whether the exact entry at the scope exists and is visited. -/
def exactVisited (tx : Db) (pfx : String) : Bool :=
  match dbFind tx pfx with
  | some r => r.visited
  | none => false

/-- Whether the exact entry at the scope exists and is unvisited. -/
def exactUnvisited (tx : Db) (pfx : String) : Bool :=
  match dbFind tx pfx with
  | some r => !r.visited
  | none => false

/-- The paths the sweep of a scope reports as deleted, in report order:
the exact unvisited entry first, then the unvisited descendants in
ascending path order. -/
def sweepReportedPaths (tx : Db) (pfx : String) : List String :=
  if pfx == "" then queryPaths tx ""
  else (if exactUnvisited tx pfx then [pfx] else []) ++
    queryPaths tx (pfx ++ "/")

/-- The number of visited-flag clears the sweep of a scope performs when
persistence is requested. -/
def sweepClearedCount (tx : Db) (pfx : String) : Nat :=
  if pfx == "" then (tx.filter fun r => r.visited).length
  else (if exactVisited tx pfx then 1 else 0) +
    (tx.filter fun r => likeHit (pfx ++ "/") r.path && r.visited).length

/-- The row transformation of the UPDATE statement of
mustClearVisitedFlags. -/
def clearRow (pfx : String) (rr : fileRow) : fileRow :=
  if likeHit pfx rr.path && rr.visited then { rr with visited := false } else rr

/-- The row transformation of the UPDATE statement of
mustClearVisitedFlag (single exact path). -/
def clearOneRow (p : String) (rr : fileRow) : fileRow :=
  if rr.path == p && rr.visited then { rr with visited := false } else rr

/-
Section 8: characterization of the classifier phase.
-/

def filesNodup (files : List fileCheckMsg) : Prop :=
  (files.map fun f => f.relPath).Nodup

/-- The catalog row at the path of a discovered file after the file's
reconciliation command (if any) has been applied, as a function of the
pre-run catalog. -/
def touchRow (cfg : config) (db0 : Db) (digest : String → String)
    (f : fileCheckMsg) : Option fileRow :=
  match (checkOneFile cfg db0 digest f).cmd with
  | some c =>
    if c.opType == "I" then
      some ⟨c.info.relPath, c.info.size, storedChecksum c.info.checksum, true⟩
    else if c.opType == "U" then
      (dbFind db0 f.relPath).map fun r =>
        { r with size := c.info.size,
                 checksum := storedChecksum c.info.checksum, visited := true }
    else
      (dbFind db0 f.relPath).map fun r => { r with visited := true }
  | none => dbFind db0 f.relPath

/-
Section 9: the classification outcome, result lines and counters of the
classifier phase.
-/

/-- The classification fileCheckWorker reports for one discovered file;
it does not depend on whether persistence was requested. -/
def classifyRes (cfg : config) (db : Db) (digest : String → String)
    (m : fileCheckMsg) : checkResult :=
  if shouldExcludePath cfg m.relPath then .skipped
  else
    match mustQueryFile db m.relPath with
    | none => .newFile
    | some (i, _) =>
      if i.size != m.size then .changedFile
      else if cfg.sizeOnly then .unchangedFile
      else if i.checksum == mustCalcChecksum digest m.relPath cfg.sizeOnly then
        .unchangedFile
      else .changedFile

/-- Number of discovered files with a given classification. -/
def countClass (cfg : config) (db : Db) (digest : String → String)
    (files : List fileCheckMsg) (r : checkResult) : Nat :=
  (files.filter fun m => classifyRes cfg db digest m == r).length

/-- The end-of-run deletion signals for a list of scopes. -/
def dMsgs (ps : List String) : List dbUpdateMsg :=
  ps.map fun p => ⟨"D", ⟨p, 0, ""⟩⟩

/-- Every scope is either the whole catalog or has no trailing separator. -/
def scopesOk (ps : List String) : Prop :=
  ∀ p ∈ ps, p = "" ∨ p.data.getLast? ≠ some '/'

/-- No catalog path lies in two of the scopes. -/
def scopesDisjoint (ps : List String) : Prop :=
  ps.Pairwise fun p q => ∀ x, ¬(sweepAffects p x = true ∧ sweepAffects q x = true)

def sweepAffectsAny (ps : List String) (x : String) : Bool :=
  ps.any fun p => sweepAffects p x

/-- The scopes actually swept: the requested ones, or the single
whole-catalog scope when none was requested. -/
def sweepScopes (pfxs : List String) : List String :=
  if pfxs.isEmpty then [""] else pfxs

/-- The catalog view at the end of the classifier phase, per path. -/
def workerView (cfg : config) (db0 : Db) (digest : String → String)
    (files : List fileCheckMsg) (x : String) : Option fileRow :=
  match files.find? (fun f => f.relPath == x) with
  | some f => if shouldExcludePath cfg f.relPath then dbFind db0 x
              else touchRow cfg db0 digest f
  | none => dbFind db0 x

/-- The exclusion regex flagsToConfig builds when the database file name
contains no path separator: "^(Q)|(Qj)$" with Q the quoted file name and
Qj the quoted name plus "-journal".  Under Go's substring-match
semantics this alternation matches the paths that start with the file
name or end with the journal name. -/
def autoExcludeRe (dbFile : String) (s : String) : Bool :=
  dbFile.data.isPrefixOf s.data ||
    (dbFile ++ "-journal").data.isSuffixOf s.data

/-- The inclusion regex flagsToConfig builds from an empty include list:
"^$", which matches only the empty string. -/
def emptyIncludeRe (s : String) : Bool := s == ""

def autoConfig (sizeOnly update : Bool) (dbFile : String) : config :=
  ⟨sizeOnly, update, autoExcludeRe dbFile, emptyIncludeRe⟩

/-
Section 16: scope-argument normalization (cleanPrefix in config.go /
fs.go): path.Clean("/" ++ prefix) with the leading '/' removed.
-/

/-- Split a character list at '/' (the separator of Go's path package);
the accumulator holds the current segment reversed. -/
def splitSeg (acc : List Char) : List Char → List (List Char)
  | [] => [acc.reverse]
  | c :: cs =>
    if c = '/' then acc.reverse :: splitSeg [] cs else splitSeg (c :: acc) cs

/-- The segment processing of path.Clean on a rooted path: empty and "."
segments are dropped, ".." pops the last kept segment (at the root it is
simply discarded), anything else is kept. -/
def cleanSegs (segs : List (List Char)) : List (List Char) :=
  segs.foldl
    (fun st seg =>
      if seg = [] then st
      else if seg = ['.'] then st
      else if seg = ['.', '.'] then st.dropLast
      else st ++ [seg]) []

def joinSlash : List (List Char) → List Char
  | [] => []
  | [s] => s
  | s :: rest => s ++ '/' :: joinSlash rest

/-- cleanPrefix (config.go): path.Clean("/" ++ prefix) with the leading
'/' stripped. -/
def cleanPrefix (p : String) : String :=
  ⟨joinSlash (cleanSegs (splitSeg [] p.data))⟩

/-
Section 19: concrete instances.
-/

/-- Digest mode with persistence, nothing excluded. -/
def cfgW : config := ⟨false, true, fun _ => false, fun _ => false⟩

/-- Size-only mode with persistence, nothing excluded. -/
def cfgWS : config := ⟨true, true, fun _ => false, fun _ => false⟩

/-- Digest mode without persistence, nothing excluded. -/
def cfgW3 : config := ⟨false, false, fun _ => false, fun _ => false⟩

def digestW : String → String := fun _ => "aa"

theorem replaceAllChar_append (c : Char) (r : List Char) (a b : List Char) :
    replaceAllChar c r (a ++ b) =
      replaceAllChar c r a ++ replaceAllChar c r b := by
  induction a with
  | nil => rfl
  | cons x xs ih => simp [replaceAllChar, ih]

theorem escapeForLike_nil : escapeForLike [] = [] := rfl

theorem escapeForLike_cons (c : Char) (s : List Char) :
    escapeForLike (c :: s) = escChar c ++ escapeForLike s := by
  unfold escapeForLike escChar
  by_cases h1 : c = '\\'
  · subst h1
    simp [replaceAllChar, replaceAllChar_append]
  · by_cases h2 : c = '%'
    · subst h2
      simp [replaceAllChar, replaceAllChar_append]
    · by_cases h3 : c = '_'
      · subst h3
        simp [replaceAllChar, replaceAllChar_append]
      · simp [replaceAllChar, replaceAllChar_append, h1, h2, h3]

theorem likeMatch_percent_any (s : List Char) :
    likeMatch ['%'] s = true := by
  have h : likeMatch ['%'] s = s.tails.any fun t => likeMatch [] t := by
    simp [likeMatch]
  rw [h]
  simp only [List.any_eq_true]
  exact ⟨[], by simp [List.mem_tails], rfl⟩

/-- Key property of the escaping: the LIKE pattern built from an escaped
literal followed by a single '%' matches exactly the strings having the
literal as an ASCII-case-insensitive prefix. -/
theorem likeMatch_escape (p : List Char) :
    ∀ s : List Char, likeMatch (escapeForLike p ++ ['%']) s = ciPrefixOf p s := by
  induction p with
  | nil =>
    intro s
    rw [escapeForLike_nil]
    simp only [List.nil_append]
    rw [likeMatch_percent_any]
    simp [ciPrefixOf]
  | cons c p ih =>
    intro s
    rw [escapeForLike_cons, List.append_assoc]
    by_cases h1 : c = '\\' ∨ c = '%' ∨ c = '_'
    · have he : escChar c = ['\\', c] := by simp [escChar, h1]
      rw [he]
      simp only [List.cons_append, List.nil_append]
      cases s with
      | nil => simp [likeMatch, ciPrefixOf]
      | cons c3 s2 =>
        have hl : likeMatch ('\\' :: c :: (escapeForLike p ++ ['%'])) (c3 :: s2)
            = (charLikeEq c c3 && likeMatch (escapeForLike p ++ ['%']) s2) := by
          simp [likeMatch]
        rw [hl, ih s2]
        simp [ciPrefixOf, List.isPrefixOf, charLikeEq]
    · push_neg at h1
      obtain ⟨hb, hp, hu⟩ := h1
      have he : escChar c = [c] := by simp [escChar, hb, hp, hu]
      rw [he]
      simp only [List.cons_append, List.nil_append]
      cases s with
      | nil => simp [likeMatch.eq_def, ciPrefixOf, List.isPrefixOf, hb, hp, hu]
      | cons c3 s2 =>
        have hl : likeMatch (c :: (escapeForLike p ++ ['%'])) (c3 :: s2)
            = (charLikeEq c c3 && likeMatch (escapeForLike p ++ ['%']) s2) := by
          rw [likeMatch.eq_def]
          simp [hb, hp, hu]
        rw [hl, ih s2]
        simp [ciPrefixOf, List.isPrefixOf, charLikeEq]





theorem dbFind_eq_none_iff (db : Db) (x : String) :
    dbFind db x = none ↔ ∀ r ∈ db, r.path ≠ x := by
  simp [dbFind, List.find?_eq_none]

theorem dbFind_mem {db : Db} {x : String} {r : fileRow}
    (h : dbFind db x = some r) : r ∈ db ∧ r.path = x := by
  refine ⟨List.mem_of_find?_eq_some h, ?_⟩
  have := List.find?_some h
  simpa using this

theorem dbFind_of_mem {db : Db} {r : fileRow} (hn : dbNodup db)
    (h : r ∈ db) : dbFind db r.path = some r := by
  induction db with
  | nil => cases h
  | cons a l ih =>
    rcases List.mem_cons.mp h with h | h
    · subst h
      simp [dbFind, List.find?]
    · have hne : a.path ≠ r.path := by
        intro he
        have : r.path ∈ dbPaths l := List.mem_map_of_mem _ h
        have hnotin : a.path ∉ dbPaths l := (List.nodup_cons.mp hn).1
        rw [he] at hnotin
        exact hnotin this
      have hn2 : dbNodup l := (List.nodup_cons.mp hn).2
      simpa [dbFind, List.find?, beq_eq_false_iff_ne.mpr hne] using ih hn2 h

theorem filter_path_and (db : Db) (x : String) (p : fileRow → Bool)
    (hn : dbNodup db) :
    db.filter (fun r => r.path == x && p r) =
      (match dbFind db x with
       | some r => if p r then [r] else []
       | none => []) := by
  induction db with
  | nil => simp [dbFind]
  | cons a l ih =>
    have hn2 : dbNodup l := (List.nodup_cons.mp hn).2
    by_cases hx : a.path = x
    · have hfind : dbFind (a :: l) x = some a := by
        simp [dbFind, List.find?, hx]
      have hnone : ∀ r ∈ l, r.path ≠ x := by
        intro r hr he
        have : r.path ∈ dbPaths l := List.mem_map_of_mem _ hr
        have hnotin : a.path ∉ dbPaths l := (List.nodup_cons.mp hn).1
        rw [hx, ← he] at hnotin
        exact hnotin this
      have hltail : l.filter (fun r => r.path == x && p r) = [] := by
        rw [List.filter_eq_nil_iff]
        intro r hr
        simp [hnone r hr]
      by_cases hp : p a = true
      · simp [hfind, List.filter, hx, hp, hltail]
      · simp [hfind, List.filter, hx, hp, hltail,
          Bool.eq_false_iff.mpr hp]
  
    · have hfind : dbFind (a :: l) x = dbFind l x := by
        simp [dbFind, List.find?, beq_eq_false_iff_ne.mpr hx]
      rw [hfind, ← ih hn2]
      simp [List.filter, beq_eq_false_iff_ne.mpr hx]

theorem filter_path_count (db : Db) (x : String) (p : fileRow → Bool)
    (hn : dbNodup db) :
    (db.filter fun r => r.path == x && p r).length =
      (match dbFind db x with
       | some r => if p r then 1 else 0
       | none => 0) := by
  rw [filter_path_and db x p hn]
  cases dbFind db x with
  | none => rfl
  | some r =>
    by_cases hp : p r = true
    · simp [hp]
    · simp [Bool.eq_false_iff.mpr hp]

/-- dbFind through a path-preserving row transformation. -/
theorem dbFind_map (db : Db) (g : fileRow → fileRow)
    (hg : ∀ r, (g r).path = r.path) (y : String) :
    dbFind (db.map g) y = (dbFind db y).map g := by
  induction db with
  | nil => rfl
  | cons a l ih =>
    by_cases hy : a.path = y
    · simp [dbFind, List.find?, hg, hy]
    · simpa [dbFind, List.find?, hg, beq_eq_false_iff_ne.mpr hy]
        using ih

/-- dbFind through a row filter, on a well-formed catalog. -/
theorem dbFind_filter (db : Db) (q : fileRow → Bool) (y : String)
    (hn : dbNodup db) :
    dbFind (db.filter q) y =
      (match dbFind db y with
       | some r => if q r then some r else none
       | none => none) := by
  induction db with
  | nil => rfl
  | cons a l ih =>
    have hn2 : dbNodup l := (List.nodup_cons.mp hn).2
    by_cases hy : a.path = y
    · have hnone : ∀ r ∈ l, r.path ≠ y := by
        intro r hr he
        have : r.path ∈ dbPaths l := List.mem_map_of_mem _ hr
        have hnotin : a.path ∉ dbPaths l := (List.nodup_cons.mp hn).1
        rw [hy, ← he] at hnotin
        exact hnotin this
      have htail : dbFind (l.filter q) y = none := by
        rw [dbFind_eq_none_iff]
        intro r hr
        exact hnone r (List.mem_of_mem_filter hr)
      have h3 : dbFind (a :: l) y = some a := by
        simp [dbFind, List.find?, hy]
      by_cases hq : q a = true
      · simp [dbFind, List.filter, List.find?, hy, hq]
      · have h1 : List.filter q (a :: l) = List.filter q l := by
          simp [List.filter_cons, hq]
        rw [h1, htail, h3]
        simp [hq]
    · by_cases hq : q a = true
      · simpa [dbFind, List.filter, List.find?, hq,
          beq_eq_false_iff_ne.mpr hy] using ih hn2
      · simpa [dbFind, List.filter, List.find?,
          Bool.eq_false_iff.mpr hq, beq_eq_false_iff_ne.mpr hy]
          using ih hn2

theorem dbNodup_map (db : Db) (g : fileRow → fileRow)
    (hg : ∀ r, (g r).path = r.path) (hn : dbNodup db) :
    dbNodup (db.map g) := by
  have : dbPaths (db.map g) = dbPaths db := by
    simp [dbPaths, Function.comp, hg]
  unfold dbNodup
  rw [this]
  exact hn

theorem dbNodup_filter (db : Db) (q : fileRow → Bool) (hn : dbNodup db) :
    dbNodup (db.filter q) := by
  have hsub : List.Sublist (dbPaths (db.filter q)) (dbPaths db) :=
    List.Sublist.map _ (List.filter_sublist db)
  exact List.Nodup.sublist hsub hn

theorem dbNodup_append_single (db : Db) (r : fileRow)
    (hn : dbNodup db) (hnew : dbFind db r.path = none) :
    dbNodup (db ++ [r]) := by
  unfold dbNodup dbPaths
  rw [List.map_append]
  simp only [List.map_cons, List.map_nil]
  rw [List.nodup_append]
  refine ⟨hn, List.nodup_singleton _, ?_⟩
  intro x hx
  simp only [List.mem_singleton]
  intro he
  rcases List.mem_map.mp hx with ⟨rr, hrr, hpath⟩
  rw [dbFind_eq_none_iff] at hnew
  exact hnew rr hrr (by rw [hpath, he])

theorem dbFind_append_single (db : Db) (r : fileRow) (y : String)
    (hnew : dbFind db r.path = none) :
    dbFind (db ++ [r]) y =
      (if r.path = y then some r else dbFind db y) := by
  induction db with
  | nil =>
    by_cases hy : r.path = y
    · simp [dbFind, List.find?, hy]
    · simp [dbFind, List.find?, beq_eq_false_iff_ne.mpr hy, hy]
  | cons a l ih =>
    have hnew2 : dbFind l r.path = none := by
      rw [dbFind_eq_none_iff] at hnew ⊢
      intro rr hrr
      exact hnew rr (List.mem_cons_of_mem _ hrr)
    have hane : a.path ≠ r.path := by
      rw [dbFind_eq_none_iff] at hnew
      exact hnew a (List.mem_cons_self _ _)
    by_cases hy : a.path = y
    · have hrne : r.path ≠ y := fun he => hane (by rw [he, hy])
      simp [dbFind, List.find?, hy, hrne]
    · simpa [dbFind, List.find?, beq_eq_false_iff_ne.mpr hy]
        using ih hnew2

theorem filter_path_eq (db : Db) (x : String) (hn : dbNodup db) :
    db.filter (fun r => r.path == x) =
      (match dbFind db x with
       | some r => [r]
       | none => []) := by
  have h := filter_path_and db x (fun _ => true) hn
  simp only [Bool.and_true] at h
  rw [h]
  cases dbFind db x <;> simp

theorem sortByPath_perm (db : Db) : (sortByPath db).Perm db :=
  List.perm_insertionSort rowLe db

theorem sortByPath_sorted (db : Db) : List.Sorted rowLe (sortByPath db) :=
  List.sorted_insertionSort rowLe db

theorem queryPaths_as_map (db : Db) (pfx : String) :
    queryPaths db pfx =
      (sortByPath (db.filter fun r => likeHit pfx r.path && !r.visited)).map
        fun r => r.path := by
  simp [queryPaths, mustQueryUnvisitedFiles]

theorem queryPaths_sorted (db : Db) (pfx : String) :
    List.Sorted strLe (queryPaths db pfx) := by
  rw [queryPaths_as_map]
  exact List.Pairwise.map _ (fun a b h => h) (sortByPath_sorted _)

theorem queryPaths_nodup (db : Db) (pfx : String) (hn : dbNodup db) :
    (queryPaths db pfx).Nodup := by
  rw [queryPaths_as_map]
  have hperm : ((sortByPath (db.filter fun r => likeHit pfx r.path && !r.visited)).map
      fun r => r.path).Perm
      ((db.filter fun r => likeHit pfx r.path && !r.visited).map fun r => r.path) :=
    (sortByPath_perm _).map _
  refine hperm.nodup_iff.mpr ?_
  have hsub : List.Sublist
      ((db.filter fun r => likeHit pfx r.path && !r.visited).map fun r => r.path)
      (dbPaths db) :=
    List.Sublist.map _ (List.filter_sublist db)
  exact List.Nodup.sublist hsub hn

theorem queryPaths_mem (db : Db) (pfx : String) (x : String) :
    x ∈ queryPaths db pfx ↔
      ∃ r ∈ db, r.path = x ∧ likeHit pfx x = true ∧ r.visited = false := by
  rw [queryPaths_as_map]
  constructor
  · intro hx
    rcases List.mem_map.mp hx with ⟨r, hr, hpath⟩
    have hr2 : r ∈ db.filter fun r => likeHit pfx r.path && !r.visited :=
      (sortByPath_perm _).mem_iff.mp hr
    have hmem := List.mem_of_mem_filter hr2
    have hcond := List.of_mem_filter hr2
    simp only [Bool.and_eq_true, Bool.not_eq_true'] at hcond
    exact ⟨r, hmem, hpath, by rw [← hpath]; exact hcond.1, hcond.2⟩
  · rintro ⟨r, hmem, hpath, hlike, hvis⟩
    refine List.mem_map.mpr ⟨r, ?_, hpath⟩
    refine (sortByPath_perm _).mem_iff.mpr ?_
    refine List.mem_filter.mpr ⟨hmem, ?_⟩
    simp [hpath, hlike, hvis]

theorem queryPaths_eq_of_same (db1 db2 : Db) (pfx : String)
    (h1 : dbNodup db1) (h2 : dbNodup db2)
    (h : ∀ x, x ∈ queryPaths db1 pfx ↔ x ∈ queryPaths db2 pfx) :
    queryPaths db1 pfx = queryPaths db2 pfx := by
  refine List.eq_of_perm_of_sorted ?_ (queryPaths_sorted db1 pfx)
    (queryPaths_sorted db2 pfx)
  exact (List.perm_ext_iff_of_nodup (queryPaths_nodup db1 pfx h1)
    (queryPaths_nodup db2 pfx h2)).mpr h

theorem query_length (db : Db) (pfx : String) :
    (mustQueryUnvisitedFiles db pfx).length =
      (db.filter fun r => likeHit pfx r.path && !r.visited).length := by
  simp [mustQueryUnvisitedFiles, (sortByPath_perm _).length_eq]

theorem mustInsertFile_spec (tx : Db) (f : fileInfo) (hn : dbNodup tx)
    (habs : dbFind tx f.relPath = none) :
    mustInsertFile tx f =
        .ok (tx ++ [⟨f.relPath, f.size, storedChecksum f.checksum, true⟩]) ∧
      dbNodup (tx ++ [⟨f.relPath, f.size, storedChecksum f.checksum, true⟩]) ∧
      ∀ y, dbFind (tx ++ [⟨f.relPath, f.size, storedChecksum f.checksum, true⟩]) y =
        if f.relPath = y then
          some ⟨f.relPath, f.size, storedChecksum f.checksum, true⟩
        else dbFind tx y := by
  have hcount : (tx.filter fun r => r.path == f.relPath) = [] := by
    rw [filter_path_eq tx f.relPath hn, habs]
  refine ⟨?_, ?_, ?_⟩
  · simp [mustInsertFile, hcount]
  · exact dbNodup_append_single tx _ hn habs
  · exact fun y => dbFind_append_single tx _ y habs

theorem mustUpdateAndMarkFile_spec (tx : Db) (f : fileInfo) (r : fileRow)
    (hn : dbNodup tx) (hpres : dbFind tx f.relPath = some r) :
    mustUpdateAndMarkFile tx f = .ok (tx.map (updRow f)) ∧
      dbNodup (tx.map (updRow f)) ∧
      dbFind (tx.map (updRow f)) f.relPath =
        some { r with
               size := f.size,
               checksum := storedChecksum f.checksum,
               visited := true } ∧
      ∀ y, y ≠ f.relPath → dbFind (tx.map (updRow f)) y = dbFind tx y := by
  have hcount : (tx.filter fun r => r.path == f.relPath) = [r] := by
    rw [filter_path_eq tx f.relPath hn, hpres]
  have hg : ∀ rr : fileRow, (updRow f rr).path = rr.path := by
    intro rr
    unfold updRow
    by_cases h : rr.path = f.relPath <;> simp [h]
  refine ⟨?_, ?_, ?_, ?_⟩
  · simp [mustUpdateAndMarkFile, hcount, updRow]
  · exact dbNodup_map tx _ hg hn
  · rw [dbFind_map tx _ hg, hpres]
    have hrp : r.path = f.relPath := (dbFind_mem hpres).2
    simp [updRow, hrp]
  · intro y hy
    rw [dbFind_map tx _ hg]
    cases hfy : dbFind tx y with
    | none => rfl
    | some ry =>
      have hryp : ry.path = y := (dbFind_mem hfy).2
      simp [updRow, hryp, hy]

theorem mustMarkFile_spec (tx : Db) (p : String) (r : fileRow)
    (hn : dbNodup tx) (hpres : dbFind tx p = some r)
    (hunvis : r.visited = false) :
    mustMarkFile tx p = .ok (tx.map (markRow p)) ∧
      dbNodup (tx.map (markRow p)) ∧
      dbFind (tx.map (markRow p)) p = some { r with visited := true } ∧
      ∀ y, y ≠ p → dbFind (tx.map (markRow p)) y = dbFind tx y := by
  have hcount : (tx.filter fun rr => rr.path == p && !rr.visited) = [r] := by
    rw [filter_path_and tx p (fun rr => !rr.visited) hn, hpres]
    simp [hunvis]
  have hg : ∀ rr : fileRow, (markRow p rr).path = rr.path := by
    intro rr
    unfold markRow
    by_cases h : (rr.path == p && !rr.visited) = true <;> simp [h]
  refine ⟨?_, ?_, ?_, ?_⟩
  · simp [mustMarkFile, hcount, markRow]
  · exact dbNodup_map tx _ hg hn
  · rw [dbFind_map tx _ hg, hpres]
    have hrp : r.path = p := (dbFind_mem hpres).2
    simp [markRow, hrp, hunvis]
  · intro y hy
    rw [dbFind_map tx _ hg]
    cases hfy : dbFind tx y with
    | none => rfl
    | some ry =>
      have hryp : ry.path = y := (dbFind_mem hfy).2
      simp [markRow, hryp, hy]

/-
Section 7: characterization of the stale-entry sweep
(mustHandleDeletedFiles).
-/

theorem likeHit_ci (q x : String) : likeHit q x = ciPrefixOf q.data x.data :=
  likeMatch_escape q.data x.data

theorem likeHit_empty (x : String) : likeHit "" x = true := by
  unfold likeHit
  rw [show ("" : String).data = [] from rfl, escapeForLike_nil,
    List.nil_append]
  exact likeMatch_percent_any x.data

theorem ciPrefixOf_length {p s : List Char} (h : ciPrefixOf p s = true) :
    p.length ≤ s.length := by
  unfold ciPrefixOf at h
  have := List.isPrefixOf_iff_prefix.mp h
  have hlen := this.length_le
  simpa using hlen

theorem likeHit_slash_self (pfx : String) : likeHit (pfx ++ "/") pfx = false := by
  by_contra h
  have h2 : likeHit (pfx ++ "/") pfx = true := by
    revert h
    cases likeHit (pfx ++ "/") pfx <;> simp
  rw [likeHit_ci] at h2
  have := ciPrefixOf_length h2
  rw [String.data_append] at this
  simp at this

theorem addDeletedLines_tx (s : txState) (l : List fileInfo) :
    (addDeletedLines s l).tx = s.tx := rfl

theorem reported_map_lines (tx : Db) (pfx : String) :
    (mustQueryUnvisitedFiles tx pfx).map (fun f => "deleted: " ++ f.relPath) =
      (queryPaths tx pfx).map (fun x => "deleted: " ++ x) := by
  simp [queryPaths, List.map_map]

theorem reported_length_eq (tx : Db) (pfx : String) :
    (mustQueryUnvisitedFiles tx pfx).length = (queryPaths tx pfx).length := by
  simp [queryPaths]

theorem clearRow_path (pfx : String) (rr : fileRow) :
    (clearRow pfx rr).path = rr.path := by
  unfold clearRow
  by_cases h : (likeHit pfx rr.path && rr.visited) = true <;> simp [h]

theorem mustClearVisitedFlags_eq (tx : Db) (pfx : String) :
    mustClearVisitedFlags tx pfx =
      (tx.map (clearRow pfx),
       ((tx.filter fun r => likeHit pfx r.path && r.visited).length : Int)) := by
  unfold mustClearVisitedFlags clearRow
  rfl

theorem mustHandleDeletedFiles_empty_spec (cfg : config) (s : txState)
    (hn : dbNodup s.tx) :
    ∃ tx2,
      mustHandleDeletedFiles cfg s "" =
        .ok ⟨tx2,
          s.lines ++ (sweepReportedPaths s.tx "").map (fun x => "deleted: " ++ x),
          { s.stats with
            numFilesDeleted := s.stats.numFilesDeleted +
              ((sweepReportedPaths s.tx "").length : Int),
            numVisitedFlagsCleared := s.stats.numVisitedFlagsCleared +
              (if cfg.update then (sweepClearedCount s.tx "" : Int) else 0) }⟩ ∧
      dbNodup tx2 ∧
      (cfg.update = false → tx2 = s.tx) ∧
      (cfg.update = true → ∀ x, dbFind tx2 x =
        (match dbFind s.tx x with
         | none => none
         | some r =>
           if r.visited then some { r with visited := false } else none)) := by
  have hrep : sweepReportedPaths s.tx "" = queryPaths s.tx "" := by
    simp [sweepReportedPaths]
  by_cases hu : cfg.update = true
  · -- persistence: delete the unvisited rows, then clear the flags
    have hfilt : (s.tx.filter fun r => !(likeHit "" r.path && !r.visited)) =
        s.tx.filter fun r => r.visited := by
      refine List.filter_congr ?_
      intro r _
      rw [likeHit_empty]
      cases r.visited <;> rfl
    have hdel : mustDeleteUnvisitedFiles s.tx ""
        ((mustQueryUnvisitedFiles s.tx "").length : Int) =
        .ok (s.tx.filter fun r => r.visited) := by
      unfold mustDeleteUnvisitedFiles
      rw [query_length, hfilt]
      simp
    have hclr : mustClearVisitedFlags (s.tx.filter fun r => r.visited) "" =
        ((s.tx.filter fun r => r.visited).map (clearRow ""),
         (sweepClearedCount s.tx "" : Int)) := by
      rw [mustClearVisitedFlags_eq]
      have : ((s.tx.filter fun r => r.visited).filter
          fun r => likeHit "" r.path && r.visited) =
          s.tx.filter fun r => r.visited := by
        rw [List.filter_filter]
        refine List.filter_congr ?_
        intro r _
        rw [likeHit_empty]
        cases r.visited <;> rfl
      rw [this]
      simp [sweepClearedCount]
    refine ⟨(s.tx.filter fun r => r.visited).map (clearRow ""), ?_, ?_, ?_, ?_⟩
    · show mustHandleDeletedFiles cfg s "" = _
      unfold mustHandleDeletedFiles
      rw [if_pos (by simp), hu, if_pos rfl]
      rw [show (addDeletedLines s (mustQueryUnvisitedFiles s.tx "")).tx = s.tx
        from rfl]
      rw [hdel]
      show Except.ok _ = _
      rw [hclr]
      simp only [addDeletedLines, hrep, reported_map_lines, reported_length_eq]
      simp
    · exact dbNodup_map _ _ (clearRow_path "") (dbNodup_filter _ _ hn)
    · intro h0
      rw [h0] at hu
      cases hu
    · intro _
      intro x
      rw [dbFind_map _ _ (clearRow_path ""), dbFind_filter _ _ _ hn]
      cases hfx : dbFind s.tx x with
      | none => rfl
      | some r =>
        by_cases hv : r.visited = true
        · simp [hv, clearRow, likeHit_empty]
        · have hv2 : r.visited = false := by
            cases h : r.visited
            · rfl
            · rw [h] at hv; cases hv rfl
          simp [hv2]
  · -- dry run: report only
    have hu2 : cfg.update = false := by
      cases h : cfg.update
      · rfl
      · rw [h] at hu; cases hu rfl
    refine ⟨s.tx, ?_, hn, fun _ => rfl, ?_⟩
    · unfold mustHandleDeletedFiles
      rw [if_pos (by simp), hu2]
      simp only [if_false, Bool.false_eq_true]
      simp only [addDeletedLines, hrep, reported_map_lines, reported_length_eq]
      simp
    · intro h0
      rw [h0] at hu
      cases hu rfl

theorem exceptBindOk {α β ε : Type} (v : α) (f : α → Except ε β) :
    (Except.ok v >>= f) = f v := rfl

theorem exceptBindErr {α β ε : Type} (e : ε) (f : α → Except ε β) :
    ((Except.error e : Except ε α) >>= f) = .error e := rfl

theorem dbRows_nodup {db : Db} (hn : dbNodup db) : db.Nodup :=
  List.Nodup.of_map _ hn

theorem mem_iff_find {db : Db} {r : fileRow} (hn : dbNodup db) :
    r ∈ db ↔ dbFind db r.path = some r := by
  constructor
  · exact dbFind_of_mem hn
  · intro h
    exact (dbFind_mem h).1

theorem queryPaths_mem_find (db : Db) (pfx x : String) (hn : dbNodup db) :
    x ∈ queryPaths db pfx ↔
      ∃ r, dbFind db x = some r ∧ likeHit pfx x = true ∧
        r.visited = false := by
  rw [queryPaths_mem]
  constructor
  · rintro ⟨r, hmem, hpath, hlike, hvis⟩
    refine ⟨r, ?_, hlike, hvis⟩
    rw [← hpath]
    exact dbFind_of_mem hn hmem
  · rintro ⟨r, hfind, hlike, hvis⟩
    exact ⟨r, (dbFind_mem hfind).1, (dbFind_mem hfind).2, hlike, hvis⟩

theorem filter_length_eq_of_find_eq_on (db1 db2 : Db) (q : fileRow → Bool)
    (pfxS : String) (h1 : dbNodup db1) (h2 : dbNodup db2)
    (hq : ∀ r, q r = true → likeHit pfxS r.path = true)
    (hsame : ∀ x, likeHit pfxS x = true → dbFind db1 x = dbFind db2 x) :
    (db1.filter q).length = (db2.filter q).length := by
  have hperm : (db1.filter q).Perm (db2.filter q) := by
    refine (List.perm_ext_iff_of_nodup ?_ ?_).mpr ?_
    · exact List.Nodup.filter _ (dbRows_nodup h1)
    · exact List.Nodup.filter _ (dbRows_nodup h2)
    · intro r
      simp only [List.mem_filter]
      constructor
      · rintro ⟨hmem, hqr⟩
        refine ⟨?_, hqr⟩
        rw [mem_iff_find h2, ← hsame r.path (hq r hqr)]
        exact (mem_iff_find h1).mp hmem
      · rintro ⟨hmem, hqr⟩
        refine ⟨?_, hqr⟩
        rw [mem_iff_find h1, hsame r.path (hq r hqr)]
        exact (mem_iff_find h2).mp hmem
  exact hperm.length_eq

theorem queryPaths_eq_of_find_eq_on (db1 db2 : Db) (pfx : String)
    (h1 : dbNodup db1) (h2 : dbNodup db2)
    (hsame : ∀ x, likeHit pfx x = true → dbFind db1 x = dbFind db2 x) :
    queryPaths db1 pfx = queryPaths db2 pfx := by
  refine queryPaths_eq_of_same db1 db2 pfx h1 h2 ?_
  intro x
  rw [queryPaths_mem_find _ _ _ h1, queryPaths_mem_find _ _ _ h2]
  constructor
  · rintro ⟨r, hf, hl, hv⟩
    exact ⟨r, by rw [← hsame x hl]; exact hf, hl, hv⟩
  · rintro ⟨r, hf, hl, hv⟩
    exact ⟨r, by rw [hsame x hl]; exact hf, hl, hv⟩

theorem clearOneRow_path (p : String) (rr : fileRow) :
    (clearOneRow p rr).path = rr.path := by
  unfold clearOneRow
  by_cases h : (rr.path == p && rr.visited) = true <;> simp [h]

theorem mustClearVisitedFlag_eq (db : Db) (p : String) :
    mustClearVisitedFlag db p = db.map (clearOneRow p) := rfl

theorem handleScopeRange_spec (cfg : config) (t : txState) (pfx : String)
    (n0 : Int) (hn : dbNodup t.tx) (hn0 : cfg.update = true → n0 = 0) :
    ∃ tx2,
      handleScopeRange cfg t pfx n0 =
        .ok ⟨tx2,
          t.lines ++ (queryPaths t.tx (pfx ++ "/")).map
            (fun x => "deleted: " ++ x),
          { t.stats with
            numFilesDeleted := t.stats.numFilesDeleted +
              ((queryPaths t.tx (pfx ++ "/")).length : Int),
            numVisitedFlagsCleared := t.stats.numVisitedFlagsCleared +
              (if cfg.update then
                ((t.tx.filter fun r =>
                  likeHit (pfx ++ "/") r.path && r.visited).length : Int)
               else 0) }⟩ ∧
      dbNodup tx2 ∧
      (cfg.update = false → tx2 = t.tx) ∧
      (cfg.update = true → ∀ x, dbFind tx2 x =
        (match dbFind t.tx x with
         | none => none
         | some r =>
           if likeHit (pfx ++ "/") x then
             (if r.visited then some { r with visited := false } else none)
           else some r)) := by
  by_cases hu : cfg.update = true
  · have hn0v : n0 = 0 := hn0 hu
    subst hn0v
    have hdel : mustDeleteUnvisitedFiles t.tx (pfx ++ "/")
        (0 + ((mustQueryUnvisitedFiles t.tx (pfx ++ "/")).length : Int)) =
        .ok (t.tx.filter fun r => !(likeHit (pfx ++ "/") r.path && !r.visited)) := by
      unfold mustDeleteUnvisitedFiles
      rw [query_length]
      simp
    have hcnt : ((t.tx.filter fun r => !(likeHit (pfx ++ "/") r.path && !r.visited)).filter
        fun r => likeHit (pfx ++ "/") r.path && r.visited) =
        t.tx.filter fun r => likeHit (pfx ++ "/") r.path && r.visited := by
      rw [List.filter_filter]
      refine List.filter_congr ?_
      intro r _
      cases hv : r.visited <;> cases hl : likeHit (pfx ++ "/") r.path <;> rfl
    refine ⟨((t.tx.filter fun r =>
      !(likeHit (pfx ++ "/") r.path && !r.visited)).map
        (clearRow (pfx ++ "/"))), ?_, ?_, ?_, ?_⟩
    · unfold handleScopeRange
      rw [hu, if_pos rfl]
      rw [show (addDeletedLines t (mustQueryUnvisitedFiles t.tx (pfx ++ "/"))).tx
        = t.tx from rfl]
      rw [hdel, exceptBindOk, mustClearVisitedFlags_eq, hcnt]
      simp only [addDeletedLines, reported_map_lines, reported_length_eq]
      simp
    · exact dbNodup_map _ _ (clearRow_path _) (dbNodup_filter _ _ hn)
    · intro h0; rw [h0] at hu; cases hu
    · intro _ x
      rw [dbFind_map _ _ (clearRow_path _), dbFind_filter _ _ _ hn]
      cases hfx : dbFind t.tx x with
      | none => rfl
      | some r =>
        have hrp : r.path = x := (dbFind_mem hfx).2
        by_cases hl : likeHit (pfx ++ "/") x = true
        · by_cases hv : r.visited = true
          · simp [hl, hv, hrp, clearRow]
          · have hv2 : r.visited = false := by
              cases h : r.visited
              · rfl
              · rw [h] at hv; cases hv rfl
            simp [hl, hv2, hrp]
        · have hl2 : likeHit (pfx ++ "/") x = false := by
            cases h : likeHit (pfx ++ "/") x
            · rfl
            · rw [h] at hl; cases hl rfl
          simp [hl2, hrp, clearRow]
  · have hu2 : cfg.update = false := by
      cases h : cfg.update
      · rfl
      · rw [h] at hu; cases hu rfl
    refine ⟨t.tx, ?_, hn, fun _ => rfl, ?_⟩
    · unfold handleScopeRange
      rw [hu2]
      simp only [if_false, Bool.false_eq_true]
      simp only [addDeletedLines, reported_map_lines, reported_length_eq]
      simp
    · intro h0; rw [h0] at hu; cases hu rfl

theorem mustHandleDeletedFiles_scope_spec (cfg : config) (s : txState)
    (pfx : String) (hn : dbNodup s.tx) (hne : pfx ≠ "")
    (hsl : pfx.data.getLast? ≠ some '/') :
    ∃ tx2,
      mustHandleDeletedFiles cfg s pfx =
        .ok ⟨tx2,
          s.lines ++ (sweepReportedPaths s.tx pfx).map (fun x => "deleted: " ++ x),
          { s.stats with
            numFilesDeleted := s.stats.numFilesDeleted +
              ((sweepReportedPaths s.tx pfx).length : Int),
            numVisitedFlagsCleared := s.stats.numVisitedFlagsCleared +
              (if cfg.update then (sweepClearedCount s.tx pfx : Int) else 0) }⟩ ∧
      dbNodup tx2 ∧
      (cfg.update = false → tx2 = s.tx) ∧
      (cfg.update = true → ∀ x, dbFind tx2 x =
        (match dbFind s.tx x with
         | none => none
         | some r =>
           if sweepAffects pfx x then
             (if r.visited then some { r with visited := false } else none)
           else some r)) := by
  have hne' : (pfx == "") = false := beq_eq_false_iff_ne.mpr hne
  have hsl' : (pfx.data.getLast? == some '/') = false :=
    beq_eq_false_iff_ne.mpr hsl
  have hunfold : mustHandleDeletedFiles cfg s pfx =
      ((match mustQueryFile s.tx pfx with
        | none => Except.ok (s, 0)
        | some (f, visited) =>
          if visited then
            if cfg.update then
              .ok ({ s with
                     tx := mustClearVisitedFlag s.tx pfx,
                     stats := { s.stats with numVisitedFlagsCleared :=
                       s.stats.numVisitedFlagsCleared + 1 } }, 0)
            else .ok (s, 0)
          else
            let s1 := addDeletedLines s [f]
            if cfg.update then do
              let tx2 ← mustDeleteUnvisitedFile s1.tx pfx
              .ok ({ s1 with tx := tx2 }, 0)
            else .ok (s1, 1) : Except String (txState × Int)) >>=
        fun r1 => handleScopeRange cfg r1.fst pfx r1.snd) := by
    unfold mustHandleDeletedFiles
    rw [hne', hsl']
    simp
  cases hfind : dbFind s.tx pfx with
  | none =>
    have hqf : mustQueryFile s.tx pfx = none := by
      unfold mustQueryFile
      rw [hfind]
    have hrep : sweepReportedPaths s.tx pfx = queryPaths s.tx (pfx ++ "/") := by
      simp [sweepReportedPaths, exactUnvisited, hfind, hne']
    have hclr : sweepClearedCount s.tx pfx =
        (s.tx.filter fun r => likeHit (pfx ++ "/") r.path && r.visited).length := by
      simp [sweepClearedCount, exactVisited, hfind, hne']
    obtain ⟨tx2, hok, hnd, hdry, hupd⟩ :=
      handleScopeRange_spec cfg s pfx 0 hn (fun _ => rfl)
    refine ⟨tx2, ?_, hnd, hdry, ?_⟩
    · rw [hunfold, hqf, exceptBindOk]
      show handleScopeRange cfg s pfx 0 = _
      rw [hok, hrep, hclr]
    · intro hu
      intro x
      rw [hupd hu x]
      cases hfx : dbFind s.tx x with
      | none => rfl
      | some r =>
        have hxne : x ≠ pfx := by
          intro he
          rw [he, hfind] at hfx
          cases hfx
        have : sweepAffects pfx x = likeHit (pfx ++ "/") x := by
          simp [sweepAffects, hne', beq_eq_false_iff_ne.mpr hxne]
        rw [this]
  | some r =>
    have hqf : mustQueryFile s.tx pfx =
        some (⟨pfx, r.size, r.checksum.getD ""⟩, r.visited) := by
      unfold mustQueryFile
      rw [hfind]
    have hrpath : r.path = pfx := (dbFind_mem hfind).2
    cases hv : r.visited with
    | true =>
      have hrep : sweepReportedPaths s.tx pfx =
          queryPaths s.tx (pfx ++ "/") := by
        simp [sweepReportedPaths, exactUnvisited, hfind, hv, hne']
      have hclr : sweepClearedCount s.tx pfx =
          1 + (s.tx.filter fun rr =>
            likeHit (pfx ++ "/") rr.path && rr.visited).length := by
        simp [sweepClearedCount, exactVisited, hfind, hv, hne']
      by_cases hu : cfg.update = true
      · -- exact entry visited, persistence: clear its flag, then range part
        set s1 : txState :=
          { s with
            tx := mustClearVisitedFlag s.tx pfx,
            stats := { s.stats with numVisitedFlagsCleared :=
              s.stats.numVisitedFlagsCleared + 1 } } with hs1
        have hn1 : dbNodup s1.tx := by
          rw [hs1, mustClearVisitedFlag_eq]
          exact dbNodup_map _ _ (clearOneRow_path _) hn
        have hfind1 : ∀ y, dbFind s1.tx y =
            if y = pfx then some { r with visited := false }
            else dbFind s.tx y := by
          intro y
          rw [hs1]
          show dbFind (mustClearVisitedFlag s.tx pfx) y = _
          rw [mustClearVisitedFlag_eq, dbFind_map _ _ (clearOneRow_path _)]
          by_cases hy : y = pfx
          · rw [hy, hfind]
            simp [clearOneRow, hrpath, hv]
          · cases hfy : dbFind s.tx y with
            | none => simp [hy]
            | some ry =>
              have hryp : ry.path = y := (dbFind_mem hfy).2
              simp [clearOneRow, hryp, beq_eq_false_iff_ne.mpr hy, hy]
        have hsame : ∀ x, likeHit (pfx ++ "/") x = true →
            dbFind s1.tx x = dbFind s.tx x := by
          intro x hlx
          have hxne : x ≠ pfx := by
            intro he
            rw [he, likeHit_slash_self] at hlx
            cases hlx
          rw [hfind1 x, if_neg hxne]
        have hq1 : queryPaths s1.tx (pfx ++ "/") = queryPaths s.tx (pfx ++ "/") :=
          queryPaths_eq_of_find_eq_on _ _ _ hn1 hn hsame
        have hc1 : (s1.tx.filter fun rr =>
            likeHit (pfx ++ "/") rr.path && rr.visited).length =
            (s.tx.filter fun rr =>
              likeHit (pfx ++ "/") rr.path && rr.visited).length := by
          refine filter_length_eq_of_find_eq_on _ _ _ (pfx ++ "/") hn1 hn ?_ hsame
          intro rr hrr
          exact ((Bool.and_eq_true _ _).mp hrr).1
        obtain ⟨tx2, hok, hnd, hdry, hupd⟩ :=
          handleScopeRange_spec cfg s1 pfx 0 hn1 (fun _ => rfl)
        refine ⟨tx2, ?_, hnd, ?_, ?_⟩
        · rw [hunfold, hqf]
          simp only [hv, hu, eq_self_iff_true, if_true]
          rw [exceptBindOk]
          show handleScopeRange cfg s1 pfx 0 = _
          rw [hok, hq1, hc1, hrep, hclr]
          have hlines : s1.lines = s.lines := by rw [hs1]
          have hstats : s1.stats = { s.stats with numVisitedFlagsCleared :=
              s.stats.numVisitedFlagsCleared + 1 } := by rw [hs1]
          rw [hlines, hstats, hu]
          simp only [eq_self_iff_true, if_true]
          rw [Int.add_assoc]
          push_cast
          rfl
        · intro h0; rw [h0] at hu; cases hu
        · intro _ x
          rw [hupd hu x]
          rw [hfind1 x]
          by_cases hx : x = pfx
          · rw [if_pos hx, hx, hfind]
            rw [likeHit_slash_self]
            simp [sweepAffects, hne', hv]
          · rw [if_neg hx]
            cases hfx : dbFind s.tx x with
            | none => rfl
            | some rx =>
              have : sweepAffects pfx x = likeHit (pfx ++ "/") x := by
                simp [sweepAffects, hne', beq_eq_false_iff_ne.mpr hx]
              rw [this]
      · -- exact entry visited, dry run: nothing to do for the exact entry
        have hu2 : cfg.update = false := by
          cases h : cfg.update
          · rfl
          · rw [h] at hu; cases hu rfl
        obtain ⟨tx2, hok, hnd, hdry, hupd⟩ :=
          handleScopeRange_spec cfg s pfx 0 hn
            (fun h => by simp [h] at hu2)
        refine ⟨tx2, ?_, hnd, hdry, fun h => by simp [h] at hu2⟩
        rw [hunfold, hqf]
        simp only [hv, hu2, eq_self_iff_true, if_true, Bool.false_eq_true,
          if_false]
        rw [exceptBindOk]
        show handleScopeRange cfg s pfx 0 = _
        rw [hok, hrep]
        rw [hu2]
        simp
    | false =>
      have hrep : sweepReportedPaths s.tx pfx =
          pfx :: queryPaths s.tx (pfx ++ "/") := by
        simp [sweepReportedPaths, exactUnvisited, hfind, hv, hne']
      have hclr : sweepClearedCount s.tx pfx =
          (s.tx.filter fun rr =>
            likeHit (pfx ++ "/") rr.path && rr.visited).length := by
        simp [sweepClearedCount, exactVisited, hfind, hv, hne']
      by_cases hu : cfg.update = true
      · -- exact entry unvisited, persistence: report and delete it
        have hdelx : mustDeleteUnvisitedFile s.tx pfx =
            .ok (s.tx.filter fun rr => !(rr.path == pfx && !rr.visited)) := by
          unfold mustDeleteUnvisitedFile
          rw [filter_path_and s.tx pfx (fun rr => !rr.visited) hn, hfind]
          simp [hv]
        set txc : Db := s.tx.filter fun rr => !(rr.path == pfx && !rr.visited)
          with htxc
        have hnc : dbNodup txc := dbNodup_filter _ _ hn
        have hfc : ∀ y, dbFind txc y =
            if y = pfx then none else dbFind s.tx y := by
          intro y
          rw [htxc, dbFind_filter _ _ _ hn]
          by_cases hy : y = pfx
          · rw [hy, hfind]
            simp [hrpath, hv]
          · cases hfy : dbFind s.tx y with
            | none => simp [hy]
            | some ry =>
              have hryp : ry.path = y := (dbFind_mem hfy).2
              simp [hryp, beq_eq_false_iff_ne.mpr hy, hy]
        have hsame : ∀ x, likeHit (pfx ++ "/") x = true →
            dbFind txc x = dbFind s.tx x := by
          intro x hlx
          have hxne : x ≠ pfx := by
            intro he
            rw [he, likeHit_slash_self] at hlx
            cases hlx
          rw [hfc x, if_neg hxne]
        have hq1 : queryPaths txc (pfx ++ "/") = queryPaths s.tx (pfx ++ "/") :=
          queryPaths_eq_of_find_eq_on _ _ _ hnc hn hsame
        have hc1 : (txc.filter fun rr =>
            likeHit (pfx ++ "/") rr.path && rr.visited).length =
            (s.tx.filter fun rr =>
              likeHit (pfx ++ "/") rr.path && rr.visited).length := by
          refine filter_length_eq_of_find_eq_on _ _ _ (pfx ++ "/") hnc hn ?_ hsame
          intro rr hrr
          exact ((Bool.and_eq_true _ _).mp hrr).1
        obtain ⟨tx2, hok, hnd, hdry, hupd⟩ :=
          handleScopeRange_spec cfg
            { addDeletedLines s [⟨pfx, r.size, r.checksum.getD ""⟩] with
              tx := txc } pfx 0 hnc (fun _ => rfl)
        refine ⟨tx2, ?_, hnd, ?_, ?_⟩
        · rw [hunfold, hqf]
          simp only [hv, hu, Bool.false_eq_true, if_false, eq_self_iff_true,
            if_true]
          rw [show (addDeletedLines s
              [(⟨pfx, r.size, r.checksum.getD ""⟩ : fileInfo)]).tx = s.tx
            from rfl]
          rw [hdelx, exceptBindOk, exceptBindOk]
          show handleScopeRange cfg
            { addDeletedLines s [⟨pfx, r.size, r.checksum.getD ""⟩] with
              tx := txc } pfx 0 = _
          rw [hok]
          rw [show ({ addDeletedLines s [⟨pfx, r.size, r.checksum.getD ""⟩] with
              tx := txc } : txState).tx = txc from rfl]
          rw [hq1, hc1, hrep, hclr]
          rw [show ({ addDeletedLines s [⟨pfx, r.size, r.checksum.getD ""⟩] with
              tx := txc } : txState).lines = s.lines ++ ["deleted: " ++ pfx]
            from rfl]
          rw [show ({ addDeletedLines s [⟨pfx, r.size, r.checksum.getD ""⟩] with
              tx := txc } : txState).stats = { s.stats with numFilesDeleted :=
                s.stats.numFilesDeleted + 1 } from rfl]
          rw [hu]
          simp only [eq_self_iff_true, if_true]
          simp [List.append_assoc, Int.add_comm, Int.add_left_comm,
            Int.add_assoc]
        · intro h0; rw [h0] at hu; cases hu
        · intro _ x
          rw [hupd hu x, hfc x]
          by_cases hx : x = pfx
          · rw [if_pos hx, hx, hfind]
            simp [sweepAffects, hne', hv]
          · rw [if_neg hx]
            cases hfx : dbFind s.tx x with
            | none => rfl
            | some rx =>
              have : sweepAffects pfx x = likeHit (pfx ++ "/") x := by
                simp [sweepAffects, hne', beq_eq_false_iff_ne.mpr hx]
              rw [this]
      · -- exact entry unvisited, dry run: report it, delete nothing
        have hu2 : cfg.update = false := by
          cases h : cfg.update
          · rfl
          · rw [h] at hu; cases hu rfl
        obtain ⟨tx2, hok, hnd, hdry, hupd⟩ :=
          handleScopeRange_spec cfg
            (addDeletedLines s [⟨pfx, r.size, r.checksum.getD ""⟩]) pfx 1 hn
            (fun h => by simp [h] at hu2)
        refine ⟨tx2, ?_, hnd, ?_, fun h => by simp [h] at hu2⟩
        · rw [hunfold, hqf]
          simp only [hv, hu2, Bool.false_eq_true, if_false]
          rw [exceptBindOk]
          show handleScopeRange cfg
            (addDeletedLines s [⟨pfx, r.size, r.checksum.getD ""⟩]) pfx 1 = _
          rw [hok]
          rw [show (addDeletedLines s
              [(⟨pfx, r.size, r.checksum.getD ""⟩ : fileInfo)]).tx = s.tx
            from rfl]
          rw [hrep]
          rw [show (addDeletedLines s
              [(⟨pfx, r.size, r.checksum.getD ""⟩ : fileInfo)]).lines =
              s.lines ++ ["deleted: " ++ pfx] from rfl]
          rw [show (addDeletedLines s
              [(⟨pfx, r.size, r.checksum.getD ""⟩ : fileInfo)]).stats =
              { s.stats with numFilesDeleted := s.stats.numFilesDeleted + 1 }
            from rfl]
          rw [hu2]
          simp only [Bool.false_eq_true, if_false]
          simp [List.append_assoc, Int.add_comm, Int.add_left_comm,
            Int.add_assoc]
        · intro h0
          rw [hdry h0]
          rfl

theorem checkOneFile_cmd_cases (cfg : config) (db0 : Db)
    (digest : String → String) (f : fileCheckMsg) :
    (checkOneFile cfg db0 digest f).cmd = none ∨
    (∃ info, (checkOneFile cfg db0 digest f).cmd = some ⟨"I", info⟩ ∧
      info.relPath = f.relPath ∧ dbFind db0 f.relPath = none) ∨
    (∃ info r, (checkOneFile cfg db0 digest f).cmd = some ⟨"U", info⟩ ∧
      info.relPath = f.relPath ∧ dbFind db0 f.relPath = some r) ∨
    (∃ info r, (checkOneFile cfg db0 digest f).cmd = some ⟨"M", info⟩ ∧
      info.relPath = f.relPath ∧ dbFind db0 f.relPath = some r) := by
  unfold checkOneFile
  by_cases hex : shouldExcludePath cfg f.relPath = true
  · left
    simp [hex]
  · rw [if_neg hex]
    cases hfind : dbFind db0 f.relPath with
    | none =>
      have hqf : mustQueryFile db0 f.relPath = none := by
        unfold mustQueryFile
        rw [hfind]
      rw [hqf]
      by_cases hu : cfg.update = true
      · right; left
        refine ⟨⟨f.relPath, f.size,
          mustCalcChecksum digest f.relPath cfg.sizeOnly⟩, ?_, rfl, rfl⟩
        simp [hu]
      · left
        simp [hu]
    | some r =>
      have hqf : mustQueryFile db0 f.relPath =
          some (⟨f.relPath, r.size, r.checksum.getD ""⟩, r.visited) := by
        unfold mustQueryFile
        rw [hfind]
      rw [hqf]
      simp only []
      by_cases hsz : (r.size != f.size) = true
      · rw [if_pos hsz]
        by_cases hu : cfg.update = true
        · right; right; left
          refine ⟨⟨f.relPath, f.size,
            mustCalcChecksum digest f.relPath cfg.sizeOnly⟩, r, ?_, rfl, rfl⟩
          simp [hu]
        · right; right; right
          refine ⟨⟨f.relPath, f.size, ""⟩, r, ?_, rfl, rfl⟩
          simp [hu]
      · rw [if_neg hsz]
        by_cases hso : cfg.sizeOnly = true
        · rw [if_pos hso]
          by_cases hck : ((r.checksum.getD "" != "") && cfg.update) = true
          · right; right; left
            refine ⟨⟨f.relPath, f.size, ""⟩, r, ?_, rfl, rfl⟩
            simp [hck]
          · right; right; right
            refine ⟨⟨f.relPath, f.size, ""⟩, r, ?_, rfl, rfl⟩
            simp only [Bool.not_eq_true] at hck
            simp [hck]
        · rw [if_neg hso]
          by_cases heq : (r.checksum.getD "" ==
              mustCalcChecksum digest f.relPath cfg.sizeOnly) = true
          · right; right; right
            refine ⟨⟨f.relPath, f.size,
              mustCalcChecksum digest f.relPath cfg.sizeOnly⟩, r, ?_, rfl, rfl⟩
            simp [heq]
          · by_cases hu : cfg.update = true
            · right; right; left
              refine ⟨⟨f.relPath, f.size,
                mustCalcChecksum digest f.relPath cfg.sizeOnly⟩, r, ?_, rfl, rfl⟩
              simp [heq, hu]
            · right; right; right
              refine ⟨⟨f.relPath, f.size,
                mustCalcChecksum digest f.relPath cfg.sizeOnly⟩, r, ?_, rfl, rfl⟩
              simp [heq, hu]

theorem processMsgs_cons (cfg : config) (s : txState) (m : dbUpdateMsg)
    (ms : List dbUpdateMsg) :
    processMsgs cfg s (m :: ms) =
      (applyDbUpdateMsg cfg s m) >>= fun s2 => processMsgs cfg s2 ms := rfl

theorem processMsgs_append (cfg : config) (a b : List dbUpdateMsg) :
    ∀ s : txState, processMsgs cfg s (a ++ b) =
      (processMsgs cfg s a) >>= fun s2 => processMsgs cfg s2 b := by
  induction a with
  | nil =>
    intro s
    rfl
  | cons m ms ih =>
    intro s
    rw [List.cons_append, processMsgs_cons, processMsgs_cons]
    cases happ : applyDbUpdateMsg cfg s m with
    | error e => rfl
    | ok s2 =>
      rw [exceptBindOk, exceptBindOk, ih s2]

theorem applyCmd_step (cfg : config) (db0 : Db) (digest : String → String)
    (f : fileCheckMsg) (s : txState) (hn : dbNodup s.tx)
    (hagree : dbFind s.tx f.relPath = dbFind db0 f.relPath)
    (hu0 : allUnvisited db0) :
    ∃ tx2, processMsgs cfg s (checkOneFile cfg db0 digest f).cmd.toList =
        .ok ⟨tx2, s.lines, s.stats⟩ ∧
      dbNodup tx2 ∧
      dbFind tx2 f.relPath =
        (if shouldExcludePath cfg f.relPath then dbFind s.tx f.relPath
         else touchRow cfg db0 digest f) ∧
      ∀ y, y ≠ f.relPath → dbFind tx2 y = dbFind s.tx y := by
  rcases checkOneFile_cmd_cases cfg db0 digest f with hc | ⟨info, hc, hip, hf0⟩ |
    ⟨info, r, hc, hip, hf0⟩ | ⟨info, r, hc, hip, hf0⟩
  · refine ⟨s.tx, ?_, hn, ?_, fun y _ => rfl⟩
    · rw [hc]
      rfl
    · unfold touchRow
      rw [hc]
      by_cases hex : shouldExcludePath cfg f.relPath = true
      · rw [if_pos hex]
      · rw [if_neg hex, hagree]
  · -- insert command
    have hex : shouldExcludePath cfg f.relPath = false := by
      by_contra hx
      have hx2 : shouldExcludePath cfg f.relPath = true := by
        cases h : shouldExcludePath cfg f.relPath
        · rw [h] at hx; cases hx rfl
        · rfl
      unfold checkOneFile at hc
      rw [if_pos hx2] at hc
      cases hc
    have habs : dbFind s.tx info.relPath = none := by
      rw [hip, hagree, hf0]
    obtain ⟨hins, hnd2, hch⟩ := mustInsertFile_spec s.tx info hn habs
    refine ⟨_, ?_, hnd2, ?_, ?_⟩
    · rw [hc]
      show (applyDbUpdateMsg cfg s ⟨"I", info⟩) >>= _ = _
      have happ : applyDbUpdateMsg cfg s ⟨"I", info⟩ =
          (mustInsertFile s.tx info).map fun tx2 => { s with tx := tx2 } := by
        unfold applyDbUpdateMsg
        simp
      rw [happ, hins]
      rfl
    · rw [hch f.relPath]
      unfold touchRow
      rw [hc, hex]
      simp only [Bool.false_eq_true, if_false]
      rw [hip]
      simp
    · intro y hy
      rw [hch y]
      rw [hip, if_neg (fun he => hy he.symm)]
  · -- update-and-mark command
    have hex : shouldExcludePath cfg f.relPath = false := by
      by_contra hx
      have hx2 : shouldExcludePath cfg f.relPath = true := by
        cases h : shouldExcludePath cfg f.relPath
        · rw [h] at hx; cases hx rfl
        · rfl
      unfold checkOneFile at hc
      rw [if_pos hx2] at hc
      cases hc
    have hpres : dbFind s.tx info.relPath = some r := by
      rw [hip, hagree, hf0]
    obtain ⟨hupd, hnd2, hfound, hother⟩ :=
      mustUpdateAndMarkFile_spec s.tx info r hn hpres
    refine ⟨_, ?_, hnd2, ?_, ?_⟩
    · rw [hc]
      show (applyDbUpdateMsg cfg s ⟨"U", info⟩) >>= _ = _
      have happ : applyDbUpdateMsg cfg s ⟨"U", info⟩ =
          (mustUpdateAndMarkFile s.tx info).map fun tx2 => { s with tx := tx2 } := by
        unfold applyDbUpdateMsg
        simp
      rw [happ, hupd]
      rfl
    · unfold touchRow
      rw [hc, hex]
      simp only [Bool.false_eq_true, if_false]
      rw [hf0, ← hip, hfound]
      simp
    · intro y hy
      exact hother y (by rw [hip]; exact hy)
  · -- mark command
    have hex : shouldExcludePath cfg f.relPath = false := by
      by_contra hx
      have hx2 : shouldExcludePath cfg f.relPath = true := by
        cases h : shouldExcludePath cfg f.relPath
        · rw [h] at hx; cases hx rfl
        · rfl
      unfold checkOneFile at hc
      rw [if_pos hx2] at hc
      cases hc
    have hpres : dbFind s.tx f.relPath = some r := by
      rw [hagree, hf0]
    have hvis : r.visited = false := by
      have hmem := (dbFind_mem hf0).1
      exact hu0 r hmem
    obtain ⟨hmark, hnd2, hfound, hother⟩ :=
      mustMarkFile_spec s.tx f.relPath r hn hpres hvis
    refine ⟨_, ?_, hnd2, ?_, ?_⟩
    · rw [hc]
      show (applyDbUpdateMsg cfg s ⟨"M", info⟩) >>= _ = _
      have happ : applyDbUpdateMsg cfg s ⟨"M", info⟩ =
          (mustMarkFile s.tx info.relPath).map fun tx2 => { s with tx := tx2 } := by
        unfold applyDbUpdateMsg
        simp
      rw [happ, hip, hmark]
      rfl
    · unfold touchRow
      rw [hc, hex]
      simp only [Bool.false_eq_true, if_false]
      rw [hf0, hfound]
      simp
    · intro y hy
      exact hother y hy

theorem processMsgs_workerCmds (cfg : config) (db0 : Db)
    (digest : String → String) (hu0 : allUnvisited db0) :
    ∀ (files : List fileCheckMsg) (s : txState),
      filesNodup files →
      (∀ f ∈ files, dbFind s.tx f.relPath = dbFind db0 f.relPath) →
      dbNodup s.tx →
      ∃ tx2,
        processMsgs cfg s (workerPhase cfg db0 digest files).cmds =
          .ok ⟨tx2, s.lines, s.stats⟩ ∧
        dbNodup tx2 ∧
        ∀ x, dbFind tx2 x =
          (match files.find? (fun f => f.relPath == x) with
           | some f =>
             if shouldExcludePath cfg f.relPath then dbFind s.tx x
             else touchRow cfg db0 digest f
           | none => dbFind s.tx x) := by
  intro files
  induction files with
  | nil =>
    intro s _ _ hn
    exact ⟨s.tx, rfl, hn, fun x => rfl⟩
  | cons f fs ih =>
    intro s hnodup hagree hn
    have hnodup2 : filesNodup fs := by
      unfold filesNodup at hnodup ⊢
      rw [List.map_cons] at hnodup
      exact (List.nodup_cons.mp hnodup).2
    have hfnotin : f.relPath ∉ fs.map fun g => g.relPath := by
      unfold filesNodup at hnodup
      rw [List.map_cons] at hnodup
      exact (List.nodup_cons.mp hnodup).1
    have hcmds : (workerPhase cfg db0 digest (f :: fs)).cmds =
        (checkOneFile cfg db0 digest f).cmd.toList ++
          (workerPhase cfg db0 digest fs).cmds := rfl
    rw [hcmds, processMsgs_append]
    obtain ⟨tx1, hs1, hn1, hf1, hother1⟩ :=
      applyCmd_step cfg db0 digest f s hn
        (hagree f (List.mem_cons_self _ _)) hu0
    rw [hs1, exceptBindOk]
    have hagree2 : ∀ g ∈ fs,
        dbFind (⟨tx1, s.lines, s.stats⟩ : txState).tx g.relPath =
          dbFind db0 g.relPath := by
      intro g hg
      have hgne : g.relPath ≠ f.relPath := by
        intro he
        exact hfnotin (he ▸ List.mem_map_of_mem _ hg)
      show dbFind tx1 g.relPath = _
      rw [hother1 g.relPath hgne]
      exact hagree g (List.mem_cons_of_mem _ hg)
    obtain ⟨tx2, hs2, hn2, hchar⟩ :=
      ih ⟨tx1, s.lines, s.stats⟩ hnodup2 hagree2 hn1
    refine ⟨tx2, hs2, hn2, ?_⟩
    intro x
    rw [hchar x]
    by_cases hx : f.relPath = x
    · have hfind : (f :: fs).find? (fun g => g.relPath == x) = some f := by
        simp [List.find?, hx]
      have hfsnone : fs.find? (fun g => g.relPath == x) = none := by
        rw [List.find?_eq_none]
        intro g hg
        simp only [beq_iff_eq]
        intro he
        exact hfnotin (by rw [hx]; exact he ▸ List.mem_map_of_mem _ hg)
      rw [hfind, hfsnone]
      show dbFind tx1 x = _
      rw [← hx]
      exact hf1
    · have hfind : (f :: fs).find? (fun g => g.relPath == x) =
          fs.find? (fun g => g.relPath == x) := by
        simp [List.find?, beq_eq_false_iff_ne.mpr hx]
      rw [hfind]
      have htx1 : dbFind tx1 x = dbFind s.tx x :=
        hother1 x (fun he => hx he.symm)
      cases hg : fs.find? (fun g => g.relPath == x) with
      | none => exact htx1
      | some g =>
        show (if shouldExcludePath cfg g.relPath = true then dbFind tx1 x
          else touchRow cfg db0 digest g) = _
        rw [htx1]

theorem checkOneFile_res (cfg : config) (db : Db) (digest : String → String)
    (m : fileCheckMsg) :
    (checkOneFile cfg db digest m).res = classifyRes cfg db digest m := by
  unfold checkOneFile classifyRes
  by_cases hex : shouldExcludePath cfg m.relPath = true
  · rw [if_pos hex, if_pos hex]
  · rw [if_neg hex, if_neg hex]
    cases hq : mustQueryFile db m.relPath with
    | none => simp
    | some p =>
      obtain ⟨i, v⟩ := p
      simp only []
      by_cases hsz : (i.size != m.size) = true
      · rw [if_pos hsz, if_pos hsz]
      · rw [if_neg hsz, if_neg hsz]
        by_cases hso : cfg.sizeOnly = true
        · rw [if_pos hso, if_pos hso]
        · rw [if_neg hso, if_neg hso]
          by_cases heq : (i.checksum ==
              mustCalcChecksum digest m.relPath cfg.sizeOnly) = true
          · rw [if_pos heq, if_pos heq]
          · rw [if_neg heq, if_neg heq]

theorem classifyRes_update (cfg : config) (b : Bool) (db : Db)
    (digest : String → String) (m : fileCheckMsg) :
    classifyRes { cfg with update := b } db digest m =
      classifyRes cfg db digest m := rfl

theorem workerPhase_cons (cfg : config) (db : Db) (digest : String → String)
    (m : fileCheckMsg) (ms : List fileCheckMsg) :
    workerPhase cfg db digest (m :: ms) =
      ⟨stepLines m (checkOneFile cfg db digest m).res ++
        (workerPhase cfg db digest ms).lines,
       stepStats (workerPhase cfg db digest ms).stats
         (checkOneFile cfg db digest m).res,
       (checkOneFile cfg db digest m).cmd.toList ++
         (workerPhase cfg db digest ms).cmds⟩ := rfl

theorem workerPhase_lines_update (cfg : config) (b : Bool) (db : Db)
    (digest : String → String) :
    ∀ files, (workerPhase { cfg with update := b } db digest files).lines =
      (workerPhase cfg db digest files).lines := by
  intro files
  induction files with
  | nil => rfl
  | cons m ms ih =>
    rw [workerPhase_cons, workerPhase_cons]
    show stepLines m _ ++ _ = stepLines m _ ++ _
    rw [checkOneFile_res, checkOneFile_res, classifyRes_update, ih]

theorem workerPhase_stats_update (cfg : config) (b : Bool) (db : Db)
    (digest : String → String) :
    ∀ files, (workerPhase { cfg with update := b } db digest files).stats =
      (workerPhase cfg db digest files).stats := by
  intro files
  induction files with
  | nil => rfl
  | cons m ms ih =>
    rw [workerPhase_cons, workerPhase_cons]
    show stepStats _ _ = stepStats _ _
    rw [checkOneFile_res, checkOneFile_res, classifyRes_update, ih]

theorem workerPhase_stats_eq (cfg : config) (db : Db)
    (digest : String → String) :
    ∀ files, (workerPhase cfg db digest files).stats =
      ⟨(countClass cfg db digest files .newFile : Int),
       (countClass cfg db digest files .changedFile : Int),
       0,
       (countClass cfg db digest files .unchangedFile : Int),
       0⟩ := by
  intro files
  induction files with
  | nil => rfl
  | cons m ms ih =>
    rw [workerPhase_cons]
    show stepStats _ _ = _
    rw [checkOneFile_res, ih]
    cases hres : classifyRes cfg db digest m <;>
      simp [stepStats, countClass, List.filter_cons, hres]

theorem countClass_sum (cfg : config) (db : Db) (digest : String → String) :
    ∀ files, countClass cfg db digest files .newFile +
        countClass cfg db digest files .changedFile +
        countClass cfg db digest files .unchangedFile =
      (files.filter fun m => !shouldExcludePath cfg m.relPath).length := by
  intro files
  induction files with
  | nil => rfl
  | cons m ms ih =>
    have hskip : classifyRes cfg db digest m = .skipped ↔
        shouldExcludePath cfg m.relPath = true := by
      unfold classifyRes
      by_cases hex : shouldExcludePath cfg m.relPath = true
      · simp [hex]
      · simp only [hex, if_false, Bool.false_eq_true, iff_false]
        cases hq : mustQueryFile db m.relPath with
        | none => simp
        | some p =>
          obtain ⟨i, v⟩ := p
          simp only []
          by_cases hsz : (i.size != m.size) = true
          · simp [hsz]
          · by_cases hso : cfg.sizeOnly = true
            · simp [hsz, hso]
            · simp only [hsz, hso, Bool.false_eq_true, if_false]
              split <;> simp
    unfold countClass at ih ⊢
    by_cases hex : shouldExcludePath cfg m.relPath = true
    · have hres : classifyRes cfg db digest m = .skipped := hskip.mpr hex
      simp [List.filter_cons, hres, hex]
      omega
    · cases hres : classifyRes cfg db digest m with
      | skipped => exact absurd (hskip.mp hres) hex
      | newFile =>
        simp [List.filter_cons, hres, hex]
        omega
      | changedFile =>
        simp [List.filter_cons, hres, hex]
        omega
      | unchangedFile =>
        simp [List.filter_cons, hres, hex]
        omega

/-
Section 10: the sweep phase over a list of scopes.
-/

theorem sweepAffects_self (pfx : String) : sweepAffects pfx pfx = true := by
  unfold sweepAffects
  by_cases h : (pfx == "") = true
  · simp [h]
  · simp [h]

theorem sweepAffects_of_likeHit (pfx x : String)
    (h : likeHit (pfx ++ "/") x = true) : sweepAffects pfx x = true := by
  unfold sweepAffects
  by_cases he : (pfx == "") = true
  · simp [he]
  · simp [he, h]

theorem sweepAffects_empty (x : String) : sweepAffects "" x = true := rfl

/-- Unified characterization of one sweep, for an empty scope or a scope
with no trailing separator. -/
theorem mustHandleDeletedFiles_ok (cfg : config) (s : txState) (pfx : String)
    (hn : dbNodup s.tx) (hok : pfx = "" ∨ pfx.data.getLast? ≠ some '/') :
    ∃ tx2,
      mustHandleDeletedFiles cfg s pfx =
        .ok ⟨tx2,
          s.lines ++ (sweepReportedPaths s.tx pfx).map (fun x => "deleted: " ++ x),
          { s.stats with
            numFilesDeleted := s.stats.numFilesDeleted +
              ((sweepReportedPaths s.tx pfx).length : Int),
            numVisitedFlagsCleared := s.stats.numVisitedFlagsCleared +
              (if cfg.update then (sweepClearedCount s.tx pfx : Int) else 0) }⟩ ∧
      dbNodup tx2 ∧
      (cfg.update = false → tx2 = s.tx) ∧
      (cfg.update = true → ∀ x, dbFind tx2 x =
        (match dbFind s.tx x with
         | none => none
         | some r =>
           if sweepAffects pfx x then
             (if r.visited then some { r with visited := false } else none)
           else some r)) := by
  by_cases he : pfx = ""
  · subst he
    obtain ⟨tx2, hrun, hnd, hdry, hupd⟩ := mustHandleDeletedFiles_empty_spec cfg s hn
    refine ⟨tx2, hrun, hnd, hdry, ?_⟩
    intro hu x
    rw [hupd hu x]
    cases hfx : dbFind s.tx x with
    | none => rfl
    | some r => simp [sweepAffects_empty]
  · cases hok with
    | inl h0 => exact absurd h0 he
    | inr hsl => exact mustHandleDeletedFiles_scope_spec cfg s pfx hn he hsl

/-- The reported paths and the cleared count of a sweep depend only on
the catalog entries inside the scope. -/
theorem sweepData_eq_of_find_eq (tx1 tx2 : Db) (q : String)
    (h1 : dbNodup tx1) (h2 : dbNodup tx2)
    (hsame : ∀ x, sweepAffects q x = true → dbFind tx1 x = dbFind tx2 x) :
    sweepReportedPaths tx1 q = sweepReportedPaths tx2 q ∧
      sweepClearedCount tx1 q = sweepClearedCount tx2 q := by
  by_cases he : (q == "") = true
  · have he' : q = "" := by simpa using he
    subst he'
    constructor
    · unfold sweepReportedPaths
      simp only [beq_self_eq_true, if_true]
      refine queryPaths_eq_of_find_eq_on tx1 tx2 "" h1 h2 ?_
      intro x _
      exact hsame x (sweepAffects_empty x)
    · unfold sweepClearedCount
      simp only [beq_self_eq_true, if_true]
      refine filter_length_eq_of_find_eq_on tx1 tx2 _ "" h1 h2 ?_ ?_
      · intro r _
        exact likeHit_empty r.path
      · intro x _
        exact hsame x (sweepAffects_empty x)
  · have he' : (q == "") = false := by
      cases h : (q == "") with
      | false => rfl
      | true => exact absurd h he
    have hfq : dbFind tx1 q = dbFind tx2 q := hsame q (sweepAffects_self q)
    have hqp : queryPaths tx1 (q ++ "/") = queryPaths tx2 (q ++ "/") := by
      refine queryPaths_eq_of_find_eq_on tx1 tx2 (q ++ "/") h1 h2 ?_
      intro x hx
      exact hsame x (sweepAffects_of_likeHit q x hx)
    constructor
    · unfold sweepReportedPaths
      rw [he', hqp]
      simp only [Bool.false_eq_true, if_false]
      unfold exactUnvisited
      rw [hfq]
    · unfold sweepClearedCount
      rw [he']
      simp only [Bool.false_eq_true, if_false]
      have hlen : (tx1.filter fun r => likeHit (q ++ "/") r.path &&
          r.visited).length = (tx2.filter fun r => likeHit (q ++ "/") r.path &&
          r.visited).length := by
        refine filter_length_eq_of_find_eq_on tx1 tx2 _ (q ++ "/") h1 h2 ?_ ?_
        · intro r hr
          simp only [Bool.and_eq_true] at hr
          exact hr.1
        · intro x hx
          exact hsame x (sweepAffects_of_likeHit q x hx)
      rw [hlen]
      unfold exactVisited
      rw [hfq]

theorem applyDbUpdateMsg_D (cfg : config) (s : txState) (p : String) :
    applyDbUpdateMsg cfg s ⟨"D", ⟨p, 0, ""⟩⟩ = mustHandleDeletedFiles cfg s p := rfl

theorem processMsgs_sweeps (cfg : config) :
    ∀ (ps : List String) (s : txState),
      dbNodup s.tx → scopesOk ps → scopesDisjoint ps →
      ∃ txF,
        processMsgs cfg s (dMsgs ps) =
          .ok ⟨txF,
            s.lines ++ (ps.map fun p =>
              (sweepReportedPaths s.tx p).map (fun x => "deleted: " ++ x)).flatten,
            { s.stats with
              numFilesDeleted := s.stats.numFilesDeleted +
                (((ps.map fun p => (sweepReportedPaths s.tx p).length).sum : Nat) : Int),
              numVisitedFlagsCleared := s.stats.numVisitedFlagsCleared +
                (if cfg.update then
                  (((ps.map fun p => sweepClearedCount s.tx p).sum : Nat) : Int)
                 else 0) }⟩ ∧
        dbNodup txF ∧
        (cfg.update = false → txF = s.tx) ∧
        (cfg.update = true → ∀ x, dbFind txF x =
          (match dbFind s.tx x with
           | none => none
           | some r =>
             if sweepAffectsAny ps x then
               (if r.visited then some { r with visited := false } else none)
             else some r)) := by
  intro ps
  induction ps with
  | nil =>
    intro s hn _ _
    refine ⟨s.tx, ?_, hn, fun _ => rfl, ?_⟩
    · show Except.ok s = _
      obtain ⟨tx0, lines0, stats0⟩ := s
      obtain ⟨n1, n2, n3, n4, n5⟩ := stats0
      simp [dMsgs]
    · intro _ x
      cases hfx : dbFind s.tx x <;> simp [sweepAffectsAny]
  | cons p ps ih =>
    intro s hn hok hdisj
    have hokp : p = "" ∨ p.data.getLast? ≠ some '/' := hok p (by simp)
    have hoks : scopesOk ps := fun q hq => hok q (by simp [hq])
    have hdisjp : ∀ q ∈ ps, ∀ x,
        ¬(sweepAffects p x = true ∧ sweepAffects q x = true) :=
      (List.pairwise_cons.mp hdisj).1
    have hdisjs : scopesDisjoint ps := (List.pairwise_cons.mp hdisj).2
    obtain ⟨tx1, hrun1, hn1, hdry1, hupd1⟩ :=
      mustHandleDeletedFiles_ok cfg s p hn hokp
    have hsame : ∀ q ∈ ps, ∀ x, sweepAffects q x = true →
        dbFind tx1 x = dbFind s.tx x := by
      intro q hq x hqx
      by_cases hu : cfg.update = true
      · rw [hupd1 hu x]
        cases hfx : dbFind s.tx x with
        | none => rfl
        | some r =>
          have hpx : sweepAffects p x = false := by
            cases hpx : sweepAffects p x
            · rfl
            · exact absurd ⟨hpx, hqx⟩ (hdisjp q hq x)
          rw [hpx]
          simp
      · have hu2 : cfg.update = false := by
          cases h : cfg.update
          · rfl
          · rw [h] at hu; cases hu rfl
        rw [hdry1 hu2]
    have hrepEq : ∀ q ∈ ps, sweepReportedPaths tx1 q = sweepReportedPaths s.tx q :=
      fun q hq => (sweepData_eq_of_find_eq tx1 s.tx q hn1 hn (hsame q hq)).1
    have hclrEq : ∀ q ∈ ps, sweepClearedCount tx1 q = sweepClearedCount s.tx q :=
      fun q hq => (sweepData_eq_of_find_eq tx1 s.tx q hn1 hn (hsame q hq)).2
    set s1 : txState :=
      ⟨tx1,
       s.lines ++ (sweepReportedPaths s.tx p).map (fun x => "deleted: " ++ x),
       { s.stats with
         numFilesDeleted := s.stats.numFilesDeleted +
           ((sweepReportedPaths s.tx p).length : Int),
         numVisitedFlagsCleared := s.stats.numVisitedFlagsCleared +
           (if cfg.update then (sweepClearedCount s.tx p : Int) else 0) }⟩ with hs1
    obtain ⟨txF, hrunF, hnF, hdryF, hupdF⟩ := ih s1 hn1 hoks hdisjs
    have hstep : processMsgs cfg s (dMsgs (p :: ps)) =
        processMsgs cfg s1 (dMsgs ps) := by
      show processMsgs cfg s (⟨"D", ⟨p, 0, ""⟩⟩ :: dMsgs ps) = _
      rw [processMsgs_cons, applyDbUpdateMsg_D, hrun1, exceptBindOk]
    refine ⟨txF, ?_, hnF, ?_, ?_⟩
    · rw [hstep, hrunF]
      have hmap1 : (ps.map fun q =>
          (sweepReportedPaths s1.tx q).map (fun x => "deleted: " ++ x)) =
          ps.map fun q =>
          (sweepReportedPaths s.tx q).map (fun x => "deleted: " ++ x) :=
        List.map_congr_left fun q hq => by rw [show s1.tx = tx1 from rfl, hrepEq q hq]
      have hmap2 : (ps.map fun q => (sweepReportedPaths s1.tx q).length) =
          ps.map fun q => (sweepReportedPaths s.tx q).length :=
        List.map_congr_left fun q hq => by rw [show s1.tx = tx1 from rfl, hrepEq q hq]
      have hmap3 : (ps.map fun q => sweepClearedCount s1.tx q) =
          ps.map fun q => sweepClearedCount s.tx q :=
        List.map_congr_left fun q hq => by rw [show s1.tx = tx1 from rfl, hclrEq q hq]
      rw [hmap1, hmap2, hmap3]
      by_cases hu : cfg.update = true
      · simp [hs1, hu, List.append_assoc]
        ring_nf
        exact ⟨trivial, trivial⟩
      · simp [hs1, hu, List.append_assoc]
        ring
    · intro hu2
      rw [hdryF hu2, show s1.tx = tx1 from rfl, hdry1 hu2]
    · intro hu x
      rw [hupdF hu x, show s1.tx = tx1 from rfl, hupd1 hu x]
      cases hfx : dbFind s.tx x with
      | none => rfl
      | some r =>
        have hany : sweepAffectsAny (p :: ps) x =
            (sweepAffects p x || sweepAffectsAny ps x) := List.any_cons
        cases hpx : sweepAffects p x with
        | true =>
          have hpsx : sweepAffectsAny ps x = false := by
            cases hq : sweepAffectsAny ps x
            · rfl
            · obtain ⟨q, hqmem, hqx⟩ := List.any_eq_true.mp hq
              exact absurd ⟨hpx, hqx⟩ (hdisjp q hqmem x)
          rw [hany, hpx, hpsx]
          cases hv : r.visited with
          | true => simp [hv]
          | false => simp [hv]
        | false =>
          rw [hany, hpx]
          simp

/-
Section 11: accounting of the visited-flag clears across disjoint scopes.
-/

theorem length_filter_or {α : Type} (p q : α → Bool) :
    ∀ (l : List α), (∀ a ∈ l, ¬(p a = true ∧ q a = true)) →
      (l.filter fun a => p a || q a).length =
        (l.filter p).length + (l.filter q).length := by
  intro l
  induction l with
  | nil => intro _; rfl
  | cons a l ih =>
    intro h
    have htail := ih fun b hb => h b (by simp [hb])
    have hhead := h a (by simp)
    cases hp : p a with
    | true =>
      have hq : q a = false := by
        cases hqv : q a
        · rfl
        · exact absurd ⟨hp, hqv⟩ hhead
      simp [List.filter_cons, hp, hq, htail]
      omega
    | false =>
      cases hq : q a with
      | true =>
        simp [List.filter_cons, hp, hq, htail]
        omega
      | false => simp [List.filter_cons, hp, hq, htail]

theorem sweepClearedCount_eq_filter (tx : Db) (pfx : String)
    (hn : dbNodup tx) :
    sweepClearedCount tx pfx =
      (tx.filter fun r => r.visited && sweepAffects pfx r.path).length := by
  by_cases he : (pfx == "") = true
  · have he' : pfx = "" := by simpa using he
    subst he'
    unfold sweepClearedCount
    simp only [beq_self_eq_true, if_true]
    refine congrArg _ ?_
    refine List.filter_congr ?_
    intro r _
    rw [sweepAffects_empty]
    cases r.visited <;> simp
  · have he' : (pfx == "") = false := by
      cases h : (pfx == "")
      · rfl
      · exact absurd h he
    have hne : pfx ≠ "" := by
      intro h0
      rw [h0] at he'
      simp at he'
    unfold sweepClearedCount
    rw [he']
    simp only [Bool.false_eq_true, if_false]
    have hsplit : (tx.filter fun r => r.visited && sweepAffects pfx r.path) =
        tx.filter fun r => (r.path == pfx && r.visited) ||
          (likeHit (pfx ++ "/") r.path && r.visited) := by
      refine List.filter_congr ?_
      intro r _
      unfold sweepAffects
      rw [he']
      simp only [Bool.false_eq_true, if_false]
      cases r.visited <;> cases hpp : (r.path == pfx) <;>
        cases hlh : likeHit (pfx ++ "/") r.path <;> rfl
    rw [hsplit]
    have hdisj : ∀ r ∈ tx, ¬((r.path == pfx && r.visited) = true ∧
        (likeHit (pfx ++ "/") r.path && r.visited) = true) := by
      rintro r _ ⟨h1, h2⟩
      have hp1 : r.path = pfx := by
        have := (Bool.and_eq_true _ _).mp h1
        simpa using this.1
      have hl1 : likeHit (pfx ++ "/") r.path = true :=
        ((Bool.and_eq_true _ _).mp h2).1
      rw [hp1] at hl1
      rw [likeHit_slash_self pfx] at hl1
      cases hl1
    rw [length_filter_or _ _ tx hdisj]
    rw [filter_path_count tx pfx (fun r => r.visited) hn]
    unfold exactVisited
    cases hf : dbFind tx pfx with
    | none => simp
    | some r => cases hv : r.visited <;> simp [hv]

theorem clearedSum_aux (tx : Db) (hn : dbNodup tx) :
    ∀ ps : List String, scopesDisjoint ps →
      ((ps.map fun p => sweepClearedCount tx p).sum =
        (tx.filter fun r => r.visited && sweepAffectsAny ps r.path).length) := by
  intro ps
  induction ps with
  | nil =>
    intro _
    have : (tx.filter fun r => r.visited && sweepAffectsAny [] r.path) = [] := by
      rw [List.filter_eq_nil_iff]
      intro r _
      simp [sweepAffectsAny]
    simp [this]
  | cons p ps ih =>
    intro hdisj
    have hdisjp : ∀ q ∈ ps, ∀ x,
        ¬(sweepAffects p x = true ∧ sweepAffects q x = true) :=
      (List.pairwise_cons.mp hdisj).1
    have htail := ih (List.pairwise_cons.mp hdisj).2
    have hsplit : (tx.filter fun r => r.visited && sweepAffectsAny (p :: ps) r.path) =
        tx.filter fun r => (r.visited && sweepAffects p r.path) ||
          (r.visited && sweepAffectsAny ps r.path) := by
      refine List.filter_congr ?_
      intro r _
      have : sweepAffectsAny (p :: ps) r.path =
          (sweepAffects p r.path || sweepAffectsAny ps r.path) := List.any_cons
      rw [this]
      cases r.visited <;> cases sweepAffects p r.path <;>
        cases sweepAffectsAny ps r.path <;> rfl
    have hdisj2 : ∀ r ∈ tx, ¬((r.visited && sweepAffects p r.path) = true ∧
        (r.visited && sweepAffectsAny ps r.path) = true) := by
      rintro r _ ⟨h1, h2⟩
      have ha1 : sweepAffects p r.path = true := ((Bool.and_eq_true _ _).mp h1).2
      have ha2 : sweepAffectsAny ps r.path = true := ((Bool.and_eq_true _ _).mp h2).2
      obtain ⟨q, hqmem, hq⟩ := List.any_eq_true.mp ha2
      exact hdisjp q hqmem r.path ⟨ha1, hq⟩
    rw [hsplit, length_filter_or _ _ tx hdisj2]
    rw [List.map_cons, List.sum_cons, htail,
      sweepClearedCount_eq_filter tx p hn]

/-- With pairwise-disjoint scopes that jointly cover every visited row,
the total number of visited-flag clears of the sweep phase equals the
number of visited rows. -/
theorem clearedSum_total (tx : Db) (hn : dbNodup tx) (ps : List String)
    (hdisj : scopesDisjoint ps)
    (hcover : ∀ r ∈ tx, r.visited = true → sweepAffectsAny ps r.path = true) :
    ((ps.map fun p => sweepClearedCount tx p).sum =
      (tx.filter fun r => r.visited).length) := by
  rw [clearedSum_aux tx hn ps hdisj]
  refine congrArg _ ?_
  refine List.filter_congr ?_
  intro r hr
  cases hv : r.visited with
  | false => rfl
  | true => rw [hcover r hr hv]; rfl

/-
Section 12: the whole run.
-/

theorem touchRow_cases (cfg : config) (db0 : Db) (digest : String → String)
    (f : fileCheckMsg) (hex : shouldExcludePath cfg f.relPath = false) :
    (touchRow cfg db0 digest f = none ∧ cfg.update = false ∧
      dbFind db0 f.relPath = none) ∨
    (∃ r, touchRow cfg db0 digest f = some r ∧ r.visited = true ∧
      r.path = f.relPath) := by
  unfold touchRow checkOneFile mustQueryFile
  rw [hex]
  simp only [Bool.false_eq_true, if_false]
  cases hf : dbFind db0 f.relPath with
  | none =>
    cases hu : cfg.update with
    | false =>
      left
      simp [hf]
    | true =>
      right
      refine ⟨⟨f.relPath, f.size,
        storedChecksum (mustCalcChecksum digest f.relPath cfg.sizeOnly),
        true⟩, ?_, rfl, rfl⟩
      simp [hf]
  | some r =>
    have hpath : r.path = f.relPath := (dbFind_mem hf).2
    right
    by_cases hsz : (r.size != f.size) = true
    · cases hu : cfg.update with
      | true =>
        refine ⟨{ r with
          size := f.size,
          checksum := storedChecksum (mustCalcChecksum digest f.relPath cfg.sizeOnly),
          visited := true }, ?_, rfl, hpath⟩
        simp [hf, hsz]
      | false =>
        refine ⟨{ r with
          visited := true }, ?_, rfl, hpath⟩
        simp [hf, hsz]
    · by_cases hso : cfg.sizeOnly = true
      · by_cases hck : ((r.checksum.getD "" != "") && cfg.update) = true
        · refine ⟨{ r with
            size := f.size,
            checksum := storedChecksum "",
            visited := true }, ?_, rfl, hpath⟩
          simp [hf, hsz, hso, hck]
        · refine ⟨{ r with
            visited := true }, ?_, rfl, hpath⟩
          simp [hf, hsz, hso, hck]
      · have hso' : cfg.sizeOnly = false := by
          cases h : cfg.sizeOnly
          · rfl
          · exact absurd h hso
        by_cases hcc : r.checksum.getD "" =
            mustCalcChecksum digest f.relPath false
        · refine ⟨{ r with
            visited := true }, ?_, rfl, hpath⟩
          simp [hf, hsz, hso', hcc]
        · cases hu : cfg.update with
          | true =>
            refine ⟨{ r with
              size := f.size,
              checksum := storedChecksum (mustCalcChecksum digest f.relPath false),
              visited := true }, ?_, rfl, hpath⟩
            simp [hf, hsz, hso', hcc, hu]
          | false =>
            refine ⟨{ r with
              visited := true }, ?_, rfl, hpath⟩
            simp [hf, hsz, hso', hcc, hu]

theorem sweepMsgs_eq (pfxs : List String) :
    sweepMsgs pfxs = dMsgs (sweepScopes pfxs) := by
  unfold sweepMsgs sweepScopes dMsgs
  by_cases h : pfxs.isEmpty = true <;> simp [h]

theorem files_find_of_mem :
    ∀ (files : List fileCheckMsg), filesNodup files →
      ∀ f ∈ files, files.find? (fun g => g.relPath == f.relPath) = some f := by
  intro files
  induction files with
  | nil => intro _ f hf; cases hf
  | cons a l ih =>
    intro hfn f hf
    have hfn2 : filesNodup l := (List.nodup_cons.mp hfn).2
    cases hf with
    | head => simp [List.find?]
    | tail _ hfl =>
      have hne : a.relPath ≠ f.relPath := by
        intro he
        have h1 : a.relPath ∉ l.map fun g => g.relPath :=
          (List.nodup_cons.mp hfn).1
        have h2 : f.relPath ∈ l.map fun g => g.relPath :=
          List.mem_map_of_mem _ hfl
        rw [he] at h1
        exact h1 h2
      rw [List.find?_cons_of_neg _ (by simpa using hne)]
      exact ih hfn2 f hfl

/-- Every visited row at the end of the classifier phase sits at the
path of a discovered, non-excluded file. -/
theorem workerView_visited (cfg : config) (db0 : Db)
    (digest : String → String) (files : List fileCheckMsg)
    (hu0 : allUnvisited db0) (x : String) (r : fileRow)
    (h : workerView cfg db0 digest files x = some r)
    (hv : r.visited = true) :
    ∃ f ∈ files, f.relPath = x ∧ shouldExcludePath cfg f.relPath = false := by
  unfold workerView at h
  cases hfind : files.find? (fun f => f.relPath == x) with
  | none =>
    rw [hfind] at h
    have := hu0 r (dbFind_mem h).1
    rw [hv] at this
    cases this
  | some f =>
    rw [hfind] at h
    have hfx : f.relPath = x := by
      have := List.find?_some hfind
      simpa using this
    by_cases hex : shouldExcludePath cfg f.relPath = true
    · simp only [hex, if_true] at h
      have := hu0 r (dbFind_mem h).1
      rw [hv] at this
      cases this
    · have hex' : shouldExcludePath cfg f.relPath = false := by
        cases he : shouldExcludePath cfg f.relPath
        · rfl
        · exact absurd he hex
      exact ⟨f, List.mem_of_find?_eq_some hfind, hfx, hex'⟩

/-- In persistence mode the visited rows at the end of the classifier
phase are exactly the discovered non-excluded files, so their count is
the number of those files. -/
theorem visited_count_eq (cfg : config) (db0 : Db)
    (digest : String → String) (files : List fileCheckMsg) (tx1 : Db)
    (hu : cfg.update = true)
    (hu0 : allUnvisited db0) (hfn : filesNodup files)
    (hn1 : dbNodup tx1)
    (hchar : ∀ x, dbFind tx1 x = workerView cfg db0 digest files x) :
    (tx1.filter fun r => r.visited).length =
      (files.filter fun f => !shouldExcludePath cfg f.relPath).length := by
  have hperm : ((tx1.filter fun r => r.visited).map fun r => r.path).Perm
      ((files.filter fun f => !shouldExcludePath cfg f.relPath).map
        fun f => f.relPath) := by
    refine (List.perm_ext_iff_of_nodup ?_ ?_).mpr ?_
    · refine List.Nodup.sublist ?_ hn1
      exact List.Sublist.map _ (List.filter_sublist tx1)
    · refine List.Nodup.sublist ?_ hfn
      exact List.Sublist.map _ (List.filter_sublist files)
    · intro x
      constructor
      · intro hx
        obtain ⟨r, hrmem, hrpath⟩ := List.mem_map.mp hx
        have hmem := List.mem_of_mem_filter hrmem
        have hv := List.of_mem_filter hrmem
        have hfind : dbFind tx1 x = some r := by
          rw [← hrpath]
          exact dbFind_of_mem hn1 hmem
        rw [hchar x] at hfind
        obtain ⟨f, hfmem, hfx, hfex⟩ :=
          workerView_visited cfg db0 digest files hu0 x r hfind hv
        refine List.mem_map.mpr ⟨f, ?_, hfx⟩
        refine List.mem_filter.mpr ⟨hfmem, ?_⟩
        rw [hfex]
        rfl
      · intro hx
        obtain ⟨f, hfmem, hfx⟩ := List.mem_map.mp hx
        have hmem := List.mem_of_mem_filter hfmem
        have hnex := List.of_mem_filter hfmem
        have hex : shouldExcludePath cfg f.relPath = false := by
          cases he : shouldExcludePath cfg f.relPath
          · rfl
          · rw [he] at hnex; cases hnex
        have hfind : dbFind tx1 x = touchRow cfg db0 digest f := by
          rw [hchar x]
          unfold workerView
          rw [← hfx, files_find_of_mem files hfn f hmem]
          simp [hex]
        cases touchRow_cases cfg db0 digest f hex with
        | inl hnone =>
          rw [hnone.2.1] at hu
          cases hu
        | inr hsome =>
          obtain ⟨r, hr, hrv, hrp⟩ := hsome
          refine List.mem_map.mpr ⟨r, ?_, by rw [hrp, hfx]⟩
          refine List.mem_filter.mpr ⟨?_, hrv⟩
          have : dbFind tx1 x = some r := by rw [hfind, hr]
          exact (dbFind_mem this).1
  have := hperm.length_eq
  simpa using this

theorem runPipeline_spec (cfg : config) (db0 : Db) (digest : String → String)
    (files : List fileCheckMsg) (pfxs : List String)
    (hn0 : dbNodup db0) (hu0 : allUnvisited db0) (hfn : filesNodup files)
    (hok : scopesOk (sweepScopes pfxs))
    (hdisj : scopesDisjoint (sweepScopes pfxs))
    (hcover : ∀ f ∈ files, shouldExcludePath cfg f.relPath = false →
      sweepAffectsAny (sweepScopes pfxs) f.relPath = true) :
    ∃ tx1 txF,
      dbNodup tx1 ∧ dbNodup txF ∧
      (∀ x, dbFind tx1 x = workerView cfg db0 digest files x) ∧
      runPipeline cfg db0 digest files pfxs =
        .ok (if cfg.update then txF else db0,
          ⟨txF,
           (workerPhase cfg db0 digest files).lines ++
             ((sweepScopes pfxs).map fun p =>
               (sweepReportedPaths tx1 p).map (fun x => "deleted: " ++ x)).flatten,
           ⟨(countClass cfg db0 digest files .newFile : Int),
            (countClass cfg db0 digest files .changedFile : Int),
            ((((sweepScopes pfxs).map fun p =>
              (sweepReportedPaths tx1 p).length).sum : Nat) : Int),
            (countClass cfg db0 digest files .unchangedFile : Int),
            (if cfg.update then
              ((((sweepScopes pfxs).map fun p =>
                sweepClearedCount tx1 p).sum : Nat) : Int)
             else 0)⟩⟩) ∧
      (cfg.update = false → txF = tx1) ∧
      (cfg.update = true → ∀ x, dbFind txF x =
        (match dbFind tx1 x with
         | none => none
         | some r =>
           if sweepAffectsAny (sweepScopes pfxs) x then
             (if r.visited then some { r with visited := false } else none)
           else some r)) := by
  obtain ⟨tx1, hrun1, hn1, hchar1⟩ :=
    processMsgs_workerCmds cfg db0 digest hu0 files
      ⟨db0, (workerPhase cfg db0 digest files).lines,
        (workerPhase cfg db0 digest files).stats⟩
      hfn (fun f _ => rfl) hn0
  have hchar1' : ∀ x, dbFind tx1 x = workerView cfg db0 digest files x := by
    intro x
    rw [hchar1 x]
    rfl
  obtain ⟨txF, hrun2, hnF, hdryF, hupdF⟩ :=
    processMsgs_sweeps cfg (sweepScopes pfxs)
      ⟨tx1, (workerPhase cfg db0 digest files).lines,
        (workerPhase cfg db0 digest files).stats⟩
      hn1 hok hdisj
  have hupdF' : cfg.update = true → ∀ x, dbFind txF x =
      (match dbFind tx1 x with
       | none => none
       | some r =>
         if sweepAffectsAny (sweepScopes pfxs) x then
           (if r.visited then some { r with visited := false } else none)
         else some r) := by
    intro hu x
    rw [hupdF hu x]
  have hcoverVis : ∀ r ∈ tx1, r.visited = true →
      sweepAffectsAny (sweepScopes pfxs) r.path = true := by
    intro r hr hv
    have hfind : dbFind tx1 r.path = some r := dbFind_of_mem hn1 hr
    rw [hchar1' r.path] at hfind
    obtain ⟨f, hfmem, hfx, hfex⟩ :=
      workerView_visited cfg db0 digest files hu0 r.path r hfind hv
    rw [← hfx]
    exact hcover f hfmem hfex
  have hstats : (workerPhase cfg db0 digest files).stats =
      ⟨(countClass cfg db0 digest files .newFile : Int),
       (countClass cfg db0 digest files .changedFile : Int), 0,
       (countClass cfg db0 digest files .unchangedFile : Int), 0⟩ :=
    workerPhase_stats_eq cfg db0 digest files
  have hverify : verifyStats cfg
      { (workerPhase cfg db0 digest files).stats with
        numFilesDeleted :=
          (workerPhase cfg db0 digest files).stats.numFilesDeleted +
            ((((sweepScopes pfxs).map fun p =>
              (sweepReportedPaths tx1 p).length).sum : Nat) : Int),
        numVisitedFlagsCleared :=
          (workerPhase cfg db0 digest files).stats.numVisitedFlagsCleared +
            (if cfg.update then
              ((((sweepScopes pfxs).map fun p =>
                sweepClearedCount tx1 p).sum : Nat) : Int)
             else 0) } = true := by
    unfold verifyStats
    rw [hstats]
    by_cases hu : cfg.update = true
    · rw [hu]
      simp only [if_true]
      have hsum : ((sweepScopes pfxs).map fun p =>
          sweepClearedCount tx1 p).sum =
          (tx1.filter fun r => r.visited).length :=
        clearedSum_total tx1 hn1 (sweepScopes pfxs) hdisj hcoverVis
      have hvc : (tx1.filter fun r => r.visited).length =
          (files.filter fun f => !shouldExcludePath cfg f.relPath).length :=
        visited_count_eq cfg db0 digest files tx1 hu hu0 hfn hn1 hchar1'
      have hcnt := countClass_sum cfg db0 digest files
      refine beq_iff_eq.mpr ?_
      rw [hsum, hvc, ← hcnt]
      push_cast
      ring
    · have hu2 : cfg.update = false := by
        cases h : cfg.update
        · rfl
        · exact absurd h hu
      rw [hu2]
      simp
  refine ⟨tx1, txF, hn1, hnF, hchar1', ?_, hdryF, hupdF'⟩
  show dbUpdateWorker cfg db0 _ _ _ = _
  unfold dbUpdateWorker
  rw [sweepMsgs_eq, processMsgs_append, hrun1, exceptBindOk, hrun2,
    exceptBindOk]
  show (if verifyStats cfg _ = true then _ else _) = _
  rw [hverify]
  simp only [if_true]
  refine congrArg _ ?_
  refine congrArg₂ Prod.mk rfl ?_
  show txState.mk _ _ _ = txState.mk _ _ _
  refine congrArg₂ _ rfl ?_
  rw [hstats]
  show runStats.mk _ _ _ _ _ = runStats.mk _ _ _ _ _
  rw [zero_add, zero_add]

/-
Section 13: membership of the sweep report, and independence of the
result stream from the persistence flag.
-/

theorem exactUnvisited_iff (tx : Db) (p : String) :
    exactUnvisited tx p = true ↔
      ∃ r, dbFind tx p = some r ∧ r.visited = false := by
  unfold exactUnvisited
  cases hf : dbFind tx p with
  | none => simp
  | some r => cases hv : r.visited <;> simp [hv]

theorem sweepReported_mem (tx : Db) (p : String) (hn : dbNodup tx)
    (x : String) :
    x ∈ sweepReportedPaths tx p ↔
      ∃ r, dbFind tx x = some r ∧ r.visited = false ∧
        sweepAffects p x = true := by
  by_cases he : (p == "") = true
  · have he' : p = "" := by simpa using he
    subst he'
    unfold sweepReportedPaths
    simp only [beq_self_eq_true, if_true]
    rw [queryPaths_mem_find tx "" x hn]
    constructor
    · rintro ⟨r, hf, _, hv⟩
      exact ⟨r, hf, hv, sweepAffects_empty x⟩
    · rintro ⟨r, hf, hv, _⟩
      exact ⟨r, hf, likeHit_empty x, hv⟩
  · have he' : (p == "") = false := by
      cases h : (p == "")
      · rfl
      · exact absurd h he
    unfold sweepReportedPaths
    rw [he']
    simp only [Bool.false_eq_true, if_false, List.mem_append]
    rw [queryPaths_mem_find tx (p ++ "/") x hn]
    constructor
    · rintro (hexact | ⟨r, hf, hl, hv⟩)
      · by_cases hex : exactUnvisited tx p = true
        · rw [if_pos hex] at hexact
          have hx : x = p := by simpa using hexact
          subst hx
          obtain ⟨r, hf, hv⟩ := (exactUnvisited_iff tx x).mp hex
          exact ⟨r, hf, hv, sweepAffects_self x⟩
        · rw [if_neg hex] at hexact
          cases hexact
      · exact ⟨r, hf, hv, sweepAffects_of_likeHit p x hl⟩
    · rintro ⟨r, hf, hv, ha⟩
      unfold sweepAffects at ha
      rw [he'] at ha
      simp only [Bool.false_eq_true, if_false, Bool.or_eq_true,
        beq_iff_eq] at ha
      cases ha with
      | inl hxp =>
        left
        subst hxp
        rw [if_pos ((exactUnvisited_iff tx x).mpr ⟨r, hf, hv⟩)]
        simp
      | inr hl =>
        right
        exact ⟨r, hf, hl, hv⟩

theorem sweepReported_eq_of_unvis_iff (tx tx' : Db) (p : String)
    (hn : dbNodup tx) (hn' : dbNodup tx')
    (h : ∀ x, (∃ r, dbFind tx x = some r ∧ r.visited = false) ↔
          (∃ r, dbFind tx' x = some r ∧ r.visited = false)) :
    sweepReportedPaths tx p = sweepReportedPaths tx' p := by
  have hq : ∀ q : String, queryPaths tx q = queryPaths tx' q := by
    intro q
    refine queryPaths_eq_of_same tx tx' q hn hn' ?_
    intro x
    rw [queryPaths_mem_find tx q x hn, queryPaths_mem_find tx' q x hn']
    constructor
    · rintro ⟨r, hf, hl, hv⟩
      obtain ⟨r2, hf2, hv2⟩ := (h x).mp ⟨r, hf, hv⟩
      exact ⟨r2, hf2, hl, hv2⟩
    · rintro ⟨r, hf, hl, hv⟩
      obtain ⟨r2, hf2, hv2⟩ := (h x).mpr ⟨r, hf, hv⟩
      exact ⟨r2, hf2, hl, hv2⟩
  by_cases he : (p == "") = true
  · have he' : p = "" := by simpa using he
    subst he'
    unfold sweepReportedPaths
    simp only [beq_self_eq_true, if_true]
    exact hq ""
  · have he' : (p == "") = false := by
      cases hb : (p == "")
      · rfl
      · exact absurd hb he
    unfold sweepReportedPaths
    rw [he']
    simp only [Bool.false_eq_true, if_false]
    rw [hq (p ++ "/")]
    have hex : exactUnvisited tx p = exactUnvisited tx' p := by
      cases h1 : exactUnvisited tx p <;> cases h2 : exactUnvisited tx' p
      · rfl
      · obtain ⟨r, hf, hv⟩ := (exactUnvisited_iff tx' p).mp h2
        obtain ⟨r2, hf2, hv2⟩ := (h p).mpr ⟨r, hf, hv⟩
        rw [(exactUnvisited_iff tx p).mpr ⟨r2, hf2, hv2⟩] at h1
        cases h1
      · obtain ⟨r, hf, hv⟩ := (exactUnvisited_iff tx p).mp h1
        obtain ⟨r2, hf2, hv2⟩ := (h p).mp ⟨r, hf, hv⟩
        rw [(exactUnvisited_iff tx' p).mpr ⟨r2, hf2, hv2⟩] at h2
        cases h2
      · rfl
    rw [hex]

theorem touchRow_no_unvis (cfg : config) (db0 : Db)
    (digest : String → String) (f : fileCheckMsg)
    (hex : shouldExcludePath cfg f.relPath = false) (r : fileRow)
    (h : touchRow cfg db0 digest f = some r) : r.visited = true := by
  cases touchRow_cases cfg db0 digest f hex with
  | inl h0 =>
    rw [h0.1] at h
    cases h
  | inr h1 =>
    obtain ⟨r2, h2, hv, _⟩ := h1
    rw [h2] at h
    injection h with h3
    rw [← h3]
    exact hv

/-- Whether a path holds an unvisited row at the end of the classifier
phase does not depend on the persistence flag. -/
theorem workerView_unvis_update (cfg : config) (b : Bool) (db0 : Db)
    (digest : String → String) (files : List fileCheckMsg) (x : String) :
    (∃ r, workerView { cfg with update := b } db0 digest files x = some r ∧
      r.visited = false) ↔
    (∃ r, workerView cfg db0 digest files x = some r ∧ r.visited = false) := by
  unfold workerView
  cases hfind : files.find? (fun f => f.relPath == x) with
  | none => exact Iff.rfl
  | some f =>
    by_cases hex : shouldExcludePath cfg f.relPath = true
    · have hex2 : shouldExcludePath { cfg with update := b } f.relPath = true :=
        hex
      simp only [hex, hex2, if_true]
    · have hex' : shouldExcludePath cfg f.relPath = false := by
        cases he : shouldExcludePath cfg f.relPath
        · rfl
        · exact absurd he hex
      have hex2 : shouldExcludePath { cfg with update := b } f.relPath = false :=
        hex'
      simp only [hex', hex2, Bool.false_eq_true, if_false]
      constructor
      · rintro ⟨r, hr, hv⟩
        have := touchRow_no_unvis { cfg with update := b } db0 digest f hex2 r hr
        rw [this] at hv
        cases hv
      · rintro ⟨r, hr, hv⟩
        have := touchRow_no_unvis cfg db0 digest f hex' r hr
        rw [this] at hv
        cases hv

/-
Section 14: the committed catalog after a persistence run.
-/

/-- In persistence mode the row written for a non-excluded discovered
file records the file's current size, and (in digest mode) a stored
checksum that reads back as the freshly computed digest. -/
theorem touchRow_fields (cfg : config) (db0 : Db) (digest : String → String)
    (f : fileCheckMsg) (hu : cfg.update = true)
    (hex : shouldExcludePath cfg f.relPath = false) :
    ∃ r, touchRow cfg db0 digest f = some r ∧ r.visited = true ∧
      r.path = f.relPath ∧ r.size = f.size ∧
      (cfg.sizeOnly = false →
        r.checksum.getD "" = mustCalcChecksum digest f.relPath false) := by
  have hget : ∀ c : String, (storedChecksum c).getD "" = c := by
    intro c
    unfold storedChecksum
    by_cases hc : (c == "") = true
    · have : c = "" := by simpa using hc
      rw [if_pos hc, this]
      rfl
    · rw [if_neg hc]
      rfl
  unfold touchRow checkOneFile mustQueryFile
  rw [hex, hu]
  simp only [Bool.false_eq_true, if_false, if_true]
  cases hf : dbFind db0 f.relPath with
  | none =>
    refine ⟨⟨f.relPath, f.size,
      storedChecksum (mustCalcChecksum digest f.relPath cfg.sizeOnly),
      true⟩, ?_, rfl, rfl, rfl, ?_⟩
    · simp [hf]
    · intro hso
      show (storedChecksum _).getD "" = _
      rw [hget, hso]
  | some r =>
    have hpath : r.path = f.relPath := (dbFind_mem hf).2
    by_cases hsz : (r.size != f.size) = true
    · refine ⟨{ r with
        size := f.size,
        checksum := storedChecksum (mustCalcChecksum digest f.relPath cfg.sizeOnly),
        visited := true }, ?_, rfl, hpath, rfl, ?_⟩
      · simp [hf, hsz]
      · intro hso
        show (storedChecksum _).getD "" = _
        rw [hget, hso]
    · have hsz2 : (r.size != f.size) = false := by
        cases h : (r.size != f.size)
        · rfl
        · exact absurd h hsz
      have hsz' : r.size = f.size := by simpa using hsz2
      by_cases hso : cfg.sizeOnly = true
      · by_cases hck : r.checksum.getD "" = ""
        · refine ⟨{ r with
            visited := true }, ?_, rfl, hpath, hsz', ?_⟩
          · simp [hf, hsz, hso, hck]
          · intro hso2
            rw [hso] at hso2
            cases hso2
        · refine ⟨{ r with
            size := f.size,
            checksum := storedChecksum "",
            visited := true }, ?_, rfl, hpath, rfl, ?_⟩
          · simp [hf, hsz, hso, hck]
          · intro hso2
            rw [hso] at hso2
            cases hso2
      · have hso' : cfg.sizeOnly = false := by
          cases h : cfg.sizeOnly
          · rfl
          · exact absurd h hso
        by_cases hcc : r.checksum.getD "" =
            mustCalcChecksum digest f.relPath false
        · refine ⟨{ r with
            visited := true }, ?_, rfl, hpath, hsz', fun _ => hcc⟩
          simp [hf, hsz, hso', hcc]
        · refine ⟨{ r with
            size := f.size,
            checksum := storedChecksum (mustCalcChecksum digest f.relPath false),
            visited := true }, ?_, rfl, hpath, rfl, ?_⟩
          · simp [hf, hsz, hso', hcc, hu]
          · intro _
            show (storedChecksum _).getD "" = _
            rw [hget]

/-- After a persistence run whose scopes cover every discovered
non-excluded file, every row of the committed catalog is unvisited
again. -/
theorem committed_allUnvisited (ps : List String) (tx1 txF : Db)
    (hnF : dbNodup txF)
    (hcoverVis : ∀ r ∈ tx1, r.visited = true →
      sweepAffectsAny ps r.path = true)
    (hchar : ∀ x, dbFind txF x =
      (match dbFind tx1 x with
       | none => none
       | some r =>
         if sweepAffectsAny ps x then
           (if r.visited then some { r with visited := false } else none)
         else some r)) :
    allUnvisited txF := by
  intro r hr
  have hfind : dbFind txF r.path = some r := dbFind_of_mem hnF hr
  rw [hchar r.path] at hfind
  cases hf1 : dbFind tx1 r.path with
  | none =>
    rw [hf1] at hfind
    cases hfind
  | some r0 =>
    rw [hf1] at hfind
    by_cases ha : sweepAffectsAny ps r.path = true
    · rw [ha] at hfind
      simp only [if_true] at hfind
      cases hv : r0.visited with
      | true =>
        rw [hv] at hfind
        simp only [if_true] at hfind
        injection hfind with h2
        rw [← h2]
      | false =>
        rw [hv] at hfind
        simp at hfind
    · have ha' : sweepAffectsAny ps r.path = false := by
        cases h : sweepAffectsAny ps r.path
        · rfl
        · exact absurd h ha
      rw [ha'] at hfind
      simp only [Bool.false_eq_true, if_false] at hfind
      injection hfind with h2
      cases hv : r0.visited with
      | false => rw [← h2]; exact hv
      | true =>
        have hp0 : r0.path = r.path := (dbFind_mem hf1).2
        have hc := hcoverVis r0 (dbFind_mem hf1).1 hv
        rw [hp0] at hc
        rw [hc] at ha'
        cases ha'

/-
Section 15: the claims.
-/

/-- C3: dry-run purity.  Under well-formedness of the pre-run catalog
(distinct paths, all rows unvisited), distinct discovered paths, scopes
that are valid, pairwise disjoint and cover the discovered files, a run
without persistence succeeds, produces exactly the same result-stream
lines as the same run with persistence, leaves the catalog byte-identical
(the transaction is discarded), and performs zero visited-flag clears. -/
theorem claim_C3 (cfg : config) (db0 : Db) (digest : String → String)
    (files : List fileCheckMsg) (pfxs : List String)
    (hn0 : dbNodup db0) (hu0 : allUnvisited db0) (hfn : filesNodup files)
    (hok : scopesOk (sweepScopes pfxs))
    (hdisj : scopesDisjoint (sweepScopes pfxs))
    (hcover : ∀ f ∈ files, shouldExcludePath cfg f.relPath = false →
      sweepAffectsAny (sweepScopes pfxs) f.relPath = true) :
    ∃ outU outD,
      runPipeline { cfg with update := true } db0 digest files pfxs =
        .ok outU ∧
      runPipeline { cfg with update := false } db0 digest files pfxs =
        .ok outD ∧
      outD.2.lines = outU.2.lines ∧
      outD.1 = db0 ∧
      outD.2.stats.numVisitedFlagsCleared = 0 := by
  obtain ⟨tx1U, txFU, hn1U, hnFU, hcharU, hrunU, _, _⟩ :=
    runPipeline_spec { cfg with update := true } db0 digest files pfxs
      hn0 hu0 hfn hok hdisj hcover
  obtain ⟨tx1D, txFD, hn1D, hnFD, hcharD, hrunD, _, _⟩ :=
    runPipeline_spec { cfg with update := false } db0 digest files pfxs
      hn0 hu0 hfn hok hdisj hcover
  have hunvis : ∀ x,
      (∃ r, dbFind tx1D x = some r ∧ r.visited = false) ↔
      (∃ r, dbFind tx1U x = some r ∧ r.visited = false) := by
    intro x
    have h1 : (∃ r, dbFind tx1D x = some r ∧ r.visited = false) ↔
        (∃ r, workerView cfg db0 digest files x = some r ∧
          r.visited = false) := by
      rw [hcharD x]
      exact workerView_unvis_update cfg false db0 digest files x
    have h2 : (∃ r, dbFind tx1U x = some r ∧ r.visited = false) ↔
        (∃ r, workerView cfg db0 digest files x = some r ∧
          r.visited = false) := by
      rw [hcharU x]
      exact workerView_unvis_update cfg true db0 digest files x
    rw [h1, h2]
  have hrep : ∀ p ∈ sweepScopes pfxs,
      sweepReportedPaths tx1D p = sweepReportedPaths tx1U p :=
    fun p _ => sweepReported_eq_of_unvis_iff tx1D tx1U p hn1D hn1U hunvis
  have hwl : (workerPhase { cfg with update := false } db0 digest files).lines =
      (workerPhase { cfg with update := true } db0 digest files).lines := by
    rw [workerPhase_lines_update cfg false db0 digest files,
      workerPhase_lines_update cfg true db0 digest files]
  refine ⟨_, _, hrunU, hrunD, ?_, rfl, rfl⟩
  show (workerPhase { cfg with update := false } db0 digest files).lines ++ _ =
    (workerPhase { cfg with update := true } db0 digest files).lines ++ _
  rw [hwl]
  refine congrArg _ ?_
  refine congrArg _ ?_
  exact List.map_congr_left fun p hp => by rw [hrep p hp]

/-- C1: the classifier's decision procedure in digest mode, for a
non-excluded file: an absent path is NEW with an Insert command exactly
when persistence is requested and no command otherwise; a size mismatch
is CHANGED with UpdateAndMark when persistence is requested and Mark
otherwise; equal sizes compare the freshly computed digest with the
stored one, equality giving UNCHANGED with Mark and inequality CHANGED
with UpdateAndMark or Mark depending on persistence. -/
theorem claim_C1 (cfg : config) (db : Db) (digest : String → String)
    (m : fileCheckMsg) (hex : shouldExcludePath cfg m.relPath = false)
    (hso : cfg.sizeOnly = false) :
    (mustQueryFile db m.relPath = none →
      (checkOneFile cfg db digest m).res = .newFile ∧
      (checkOneFile cfg db digest m).cmd =
        (if cfg.update then
          some ⟨"I", ⟨m.relPath, m.size, mustCalcChecksum digest m.relPath false⟩⟩
         else none)) ∧
    (∀ i v, mustQueryFile db m.relPath = some (i, v) →
      ((i.size != m.size) = true →
        (checkOneFile cfg db digest m).res = .changedFile ∧
        (checkOneFile cfg db digest m).cmd =
          (if cfg.update then
            some ⟨"U", ⟨m.relPath, m.size, mustCalcChecksum digest m.relPath false⟩⟩
           else some ⟨"M", ⟨m.relPath, m.size, ""⟩⟩)) ∧
      ((i.size != m.size) = false →
        ((i.checksum == mustCalcChecksum digest m.relPath false) = true →
          (checkOneFile cfg db digest m).res = .unchangedFile ∧
          (checkOneFile cfg db digest m).cmd =
            some ⟨"M", ⟨m.relPath, m.size,
              mustCalcChecksum digest m.relPath false⟩⟩) ∧
        ((i.checksum == mustCalcChecksum digest m.relPath false) = false →
          (checkOneFile cfg db digest m).res = .changedFile ∧
          (checkOneFile cfg db digest m).cmd =
            (if cfg.update then
              some ⟨"U", ⟨m.relPath, m.size,
                mustCalcChecksum digest m.relPath false⟩⟩
             else some ⟨"M", ⟨m.relPath, m.size,
               mustCalcChecksum digest m.relPath false⟩⟩)))) := by
  unfold checkOneFile
  rw [hex, hso]
  simp only [Bool.false_eq_true, if_false]
  refine ⟨?_, ?_⟩
  · intro hq
    rw [hq]
    exact ⟨rfl, rfl⟩
  · intro i v hq
    refine ⟨?_, ?_⟩
    · intro hsz
      refine ⟨?_, ?_⟩ <;> simp [hq, hsz]
    · intro hsz
      refine ⟨?_, ?_⟩
      · intro hck
        refine ⟨?_, ?_⟩ <;> simp [hq, hsz, hck]
      · intro hck
        refine ⟨?_, ?_⟩ <;> simp [hq, hsz, hck]

/-- C5: a present path with unchanged size scanned in size-only mode is
classified UNCHANGED and produces no output line; when a stored digest
exists and persistence is requested the emitted command is UpdateAndMark
with an absent digest, whose application clears the stored digest to
NULL, and otherwise the emitted command is Mark, whose application
rewrites no stored metadata. -/
theorem claim_C5 (cfg : config) (db : Db) (digest : String → String)
    (m : fileCheckMsg) (i : fileInfo) (v : Bool)
    (hex : shouldExcludePath cfg m.relPath = false)
    (hso : cfg.sizeOnly = true)
    (hq : mustQueryFile db m.relPath = some (i, v))
    (hsz : (i.size != m.size) = false) :
    (checkOneFile cfg db digest m).res = .unchangedFile ∧
    stepLines m .unchangedFile = [] ∧
    (((i.checksum != "") && cfg.update) = true →
      (checkOneFile cfg db digest m).cmd = some ⟨"U", ⟨m.relPath, m.size, ""⟩⟩ ∧
      storedChecksum "" = none ∧
      (∀ tx r, dbNodup tx → dbFind tx m.relPath = some r →
        mustUpdateAndMarkFile tx ⟨m.relPath, m.size, ""⟩ =
          .ok (tx.map (updRow ⟨m.relPath, m.size, ""⟩)) ∧
        dbFind (tx.map (updRow ⟨m.relPath, m.size, ""⟩)) m.relPath =
          some { r with size := m.size, checksum := none, visited := true })) ∧
    (((i.checksum != "") && cfg.update) = false →
      (checkOneFile cfg db digest m).cmd = some ⟨"M", ⟨m.relPath, m.size, ""⟩⟩ ∧
      (∀ rr : fileRow, (markRow m.relPath rr).size = rr.size ∧
        (markRow m.relPath rr).checksum = rr.checksum)) := by
  refine ⟨?_, rfl, ?_, ?_⟩
  · rw [checkOneFile_res]
    unfold classifyRes
    rw [hex, hq]
    simp [hsz, hso]
  · intro hck
    refine ⟨?_, rfl, ?_⟩
    · unfold checkOneFile
      rw [hex]
      simp [hq, hsz, hso, hck]
    · intro tx r hn hf
      obtain ⟨hok2, _, hfind2, _⟩ :=
        mustUpdateAndMarkFile_spec tx ⟨m.relPath, m.size, ""⟩ r hn hf
      exact ⟨hok2, hfind2⟩
  · intro hck
    refine ⟨?_, ?_⟩
    · unfold checkOneFile
      rw [hex]
      simp [hq, hsz, hso, hck]
    · intro rr
      unfold markRow
      by_cases h : (rr.path == m.relPath && !rr.visited) = true <;> simp [h]

/-- C7: the mark operation succeeds exactly on a present, currently
unvisited row, setting its visited flag; marking an absent path, a
visited row, or the same path twice in one run is a fatal error. -/
theorem claim_C7 (tx : Db) (p : String) (hn : dbNodup tx) :
    (∀ r, dbFind tx p = some r → r.visited = false →
      mustMarkFile tx p = .ok (tx.map (markRow p)) ∧
      dbFind (tx.map (markRow p)) p = some { r with visited := true } ∧
      (∀ y, y ≠ p → dbFind (tx.map (markRow p)) y = dbFind tx y) ∧
      mustMarkFile (tx.map (markRow p)) p =
        .error "mark: RowsAffected should be 1") ∧
    (dbFind tx p = none →
      mustMarkFile tx p = .error "mark: RowsAffected should be 1") ∧
    (∀ r, dbFind tx p = some r → r.visited = true →
      mustMarkFile tx p = .error "mark: RowsAffected should be 1") := by
  refine ⟨?_, ?_, ?_⟩
  · intro r hf hv
    obtain ⟨hok2, hn2, hfind2, hother⟩ := mustMarkFile_spec tx p r hn hf hv
    refine ⟨hok2, hfind2, hother, ?_⟩
    unfold mustMarkFile
    rw [filter_path_and _ p (fun rr => !rr.visited) hn2, hfind2]
    simp
  · intro hf
    unfold mustMarkFile
    rw [filter_path_and _ p (fun rr => !rr.visited) hn, hf]
    simp
  · intro r hf hv
    unfold mustMarkFile
    rw [filter_path_and _ p (fun rr => !rr.visited) hn, hf]
    simp [hv]

/-- C4: the invariant verifier requires the number of visited-flag
clears to equal new + changed + unchanged when persistence is requested
and zero otherwise; a violation aborts the run with an error before any
commit or rollback, and every successful run satisfied the check. -/
theorem claim_C4 (cfg : config) (db0 : Db) (lines0 : List String)
    (stats0 : runStats) (msgs : List dbUpdateMsg) :
    (∀ st : runStats, verifyStats cfg st = true ↔
      (if cfg.update = true then
        st.numVisitedFlagsCleared =
          st.numFilesNew + st.numFilesChanged + st.numFilesUnchanged
       else st.numVisitedFlagsCleared = 0)) ∧
    (∀ s, processMsgs cfg ⟨db0, lines0, stats0⟩ msgs = .ok s →
      verifyStats cfg s.stats = false →
      dbUpdateWorker cfg db0 lines0 stats0 msgs =
        .error "stats inconsistent") ∧
    (∀ db1 s, dbUpdateWorker cfg db0 lines0 stats0 msgs = .ok (db1, s) →
      verifyStats cfg s.stats = true) := by
  refine ⟨?_, ?_, ?_⟩
  · intro st
    unfold verifyStats
    by_cases hu : cfg.update = true
    · rw [hu]
      simp
    · have hu2 : cfg.update = false := by
        cases h : cfg.update
        · rfl
        · exact absurd h hu
      rw [hu2]
      simp
  · intro s hrun hbad
    unfold dbUpdateWorker
    rw [hrun, exceptBindOk, hbad]
    simp
  · intro db1 s hok
    unfold dbUpdateWorker at hok
    cases hrun : processMsgs cfg ⟨db0, lines0, stats0⟩ msgs with
    | error e =>
      rw [hrun, exceptBindErr] at hok
      cases hok
    | ok s2 =>
      rw [hrun, exceptBindOk] at hok
      by_cases hv : verifyStats cfg s2.stats = true
      · rw [hv] at hok
        simp only [if_true] at hok
        injection hok with h2
        have : s2 = s := congrArg Prod.snd h2
        rw [← this]
        exact hv
      · have hv2 : verifyStats cfg s2.stats = false := by
          cases h : verifyStats cfg s2.stats
          · rfl
          · exact absurd h hv
        rw [hv2] at hok
        simp at hok

theorem isPrefixOf_self (l : List Char) : l.isPrefixOf l = true := by
  induction l with
  | nil => rfl
  | cons a t ih => simp [List.isPrefixOf, ih]

/-- C10: with the automatically built exclusion for a separator-free
database file name (and an empty include list), a discovered file whose
relative path equals the database file name is excluded: it is
classified skipped, produces no output line, no reconciliation command,
no counter change, and contributes no command to the reconciler queue. -/
theorem claim_C10 (sizeOnly update : Bool) (dbFile : String) (db : Db)
    (digest : String → String) (m : fileCheckMsg) (st : runStats)
    (hpath : m.relPath = dbFile) (hne : dbFile ≠ "") :
    shouldExcludePath (autoConfig sizeOnly update dbFile) m.relPath = true ∧
    (checkOneFile (autoConfig sizeOnly update dbFile) db digest m).res =
      .skipped ∧
    (checkOneFile (autoConfig sizeOnly update dbFile) db digest m).cmd =
      none ∧
    stepLines m .skipped = [] ∧
    stepStats st .skipped = st ∧
    (workerPhase (autoConfig sizeOnly update dbFile) db digest [m]).cmds =
      [] := by
  have hexc : shouldExcludePath (autoConfig sizeOnly update dbFile)
      m.relPath = true := by
    rw [hpath]
    unfold shouldExcludePath
    show (autoExcludeRe dbFile dbFile && !(emptyIncludeRe dbFile)) = true
    unfold autoExcludeRe emptyIncludeRe
    rw [isPrefixOf_self dbFile.data, beq_eq_false_iff_ne.mpr hne]
    rfl
  refine ⟨hexc, ?_, ?_, rfl, rfl, ?_⟩
  · unfold checkOneFile
    rw [hexc]
    rfl
  · unfold checkOneFile
    rw [hexc]
    rfl
  · show (checkOneFile (autoConfig sizeOnly update dbFile) db digest
      m).cmd.toList ++ [] = []
    unfold checkOneFile
    rw [hexc]
    rfl

/-- C2 counterexample: the LIKE comparison of the sweep is
ASCII-case-insensitive by default, so sweeping the scope "ab" in
persistence mode deletes the unvisited entry "AB/x" even though its path
neither equals "ab" nor starts with "ab/". -/
theorem claim_C2_counterexample :
    "ab/".data.isPrefixOf "AB/x".data = false ∧
    ("AB/x" = "ab" → False) ∧
    mustHandleDeletedFiles ⟨false, true, fun _ => false, fun _ => false⟩
      ⟨[⟨"AB/x", 0, none, false⟩], [], clearStats⟩ "ab" =
      .ok ⟨[], ["deleted: AB/x"], ⟨0, 0, 1, 0, 0⟩⟩ := by
  refine ⟨by decide, by decide, by decide⟩

/-- C2 amended: the sweep treats the scope as a literal string (the LIKE
pattern escapes %, _ and backslash, so a match is exactly an
ASCII-case-insensitive prefix), and in persistence mode a sweep of a
non-empty scope without trailing separator affects exactly the entry
whose path equals the scope plus the entries whose paths start,
ASCII-case-insensitively, with the scope followed by '/': affected
visited entries get their flag cleared and affected unvisited entries
are deleted, while every other entry is untouched. -/
theorem claim_C2_amended (cfg : config) (s : txState) (pfx : String)
    (hn : dbNodup s.tx) (hne : pfx ≠ "")
    (hsl : pfx.data.getLast? ≠ some '/') (hu : cfg.update = true) :
    (∀ q x : String, likeHit q x = ciPrefixOf q.data x.data) ∧
    ∃ tx2 lines2 stats2,
      mustHandleDeletedFiles cfg s pfx = .ok ⟨tx2, lines2, stats2⟩ ∧
      ∀ x, dbFind tx2 x =
        (match dbFind s.tx x with
         | none => none
         | some r =>
           if (x == pfx || ciPrefixOf (pfx ++ "/").data x.data) then
             (if r.visited then some { r with visited := false } else none)
           else some r) := by
  have haff : ∀ x, sweepAffects pfx x =
      (x == pfx || ciPrefixOf (pfx ++ "/").data x.data) := by
    intro x
    unfold sweepAffects
    rw [beq_eq_false_iff_ne.mpr hne]
    simp only [Bool.false_eq_true, if_false]
    rw [likeHit_ci]
  obtain ⟨tx2, hok, hnd, _, hupd⟩ :=
    mustHandleDeletedFiles_scope_spec cfg s pfx hn hne hsl
  refine ⟨fun q x => likeHit_ci q x, tx2, _, _, hok, ?_⟩
  intro x
  rw [hupd hu x, ← haff x]

theorem splitSeg_no_slash :
    ∀ (l acc : List Char), '/' ∉ acc →
      ∀ seg ∈ splitSeg acc l, '/' ∉ seg := by
  intro l
  induction l with
  | nil =>
    intro acc hacc seg hseg
    simp only [splitSeg, List.mem_singleton] at hseg
    subst hseg
    simpa using hacc
  | cons c cs ih =>
    intro acc hacc seg hseg
    by_cases hc : c = '/'
    · simp only [splitSeg, if_pos hc, List.mem_cons] at hseg
      cases hseg with
      | inl h => subst h; simpa using hacc
      | inr h => exact ih [] (by simp) seg h
    · simp only [splitSeg, if_neg hc] at hseg
      refine ih (c :: acc) ?_ seg hseg
      intro hmem
      cases hmem with
      | head => exact hc rfl
      | tail _ h => exact hacc h

theorem cleanSegs_inv :
    ∀ (segs : List (List Char)) (st : List (List Char)),
      (∀ s ∈ st, s ≠ [] ∧ '/' ∉ s) →
      (∀ seg ∈ segs, '/' ∉ seg) →
      ∀ s ∈ segs.foldl
          (fun st seg =>
            if seg = [] then st
            else if seg = ['.'] then st
            else if seg = ['.', '.'] then st.dropLast
            else st ++ [seg]) st,
        s ≠ [] ∧ '/' ∉ s := by
  intro segs
  induction segs with
  | nil =>
    intro st hst _ s hs
    exact hst s hs
  | cons a rest ih =>
    intro st hst hseg s hs
    rw [List.foldl_cons] at hs
    refine ih _ ?_ (fun q hq => hseg q (by simp [hq])) s hs
    intro q hq
    by_cases h1 : a = []
    · rw [if_pos h1] at hq
      exact hst q hq
    · rw [if_neg h1] at hq
      by_cases h2 : a = ['.']
      · rw [if_pos h2] at hq
        exact hst q hq
      · rw [if_neg h2] at hq
        by_cases h3 : a = ['.', '.']
        · rw [if_pos h3] at hq
          exact hst q (List.mem_of_mem_dropLast hq)
        · rw [if_neg h3] at hq
          cases List.mem_append.mp hq with
          | inl h => exact hst q h
          | inr h =>
            have hqa : q = a := by simpa using h
            subst hqa
            exact ⟨h1, hseg q (by simp)⟩

theorem joinSlash_ne_nil :
    ∀ L : List (List Char), L ≠ [] → (∀ s ∈ L, s ≠ []) →
      joinSlash L ≠ [] := by
  intro L
  cases L with
  | nil => intro h _; exact absurd rfl h
  | cons s rest =>
    intro _ hL
    cases rest with
    | nil => exact hL s (by simp)
    | cons s2 rest2 => simp [joinSlash]

theorem joinSlash_getLast :
    ∀ L : List (List Char), (∀ s ∈ L, s ≠ [] ∧ '/' ∉ s) →
      joinSlash L = [] ∨ (joinSlash L).getLast? ≠ some '/' := by
  intro L
  induction L with
  | nil => intro _; left; rfl
  | cons s rest ih =>
    intro hL
    right
    cases rest with
    | nil =>
      show s.getLast? ≠ some '/'
      have hs := hL s (by simp)
      rw [List.getLast?_eq_getLast s hs.1]
      intro hcon
      injection hcon with hc
      exact hs.2 (hc ▸ List.getLast_mem hs.1)
    | cons s2 rest2 =>
      show (s ++ '/' :: joinSlash (s2 :: rest2)).getLast? ≠ some '/'
      have hjr : joinSlash (s2 :: rest2) ≠ [] := by
        refine joinSlash_ne_nil (s2 :: rest2) (by simp) ?_
        intro q hq
        exact (hL q (by simp [hq])).1
      rw [List.getLast?_append_of_ne_nil s (by simp)]
      have hcons : ('/' :: joinSlash (s2 :: rest2)).getLast? =
          (joinSlash (s2 :: rest2)).getLast? := by
        cases hj : joinSlash (s2 :: rest2) with
        | nil => exact absurd hj hjr
        | cons b t => simp [List.getLast?_cons_cons]
      rw [hcons]
      have := ih (fun q hq => hL q (by simp [hq]))
      cases this with
      | inl h => exact absurd h hjr
      | inr h => exact h

/-- flagsToConfig feeds every scope argument through cleanPrefix, whose
result never ends in a separator. -/
theorem cleanPrefix_no_trailing (p : String) :
    cleanPrefix p = "" ∨ (cleanPrefix p).data.getLast? ≠ some '/' := by
  have hsegs := splitSeg_no_slash p.data [] (by simp)
  have hinv := cleanSegs_inv (splitSeg [] p.data) [] (by simp) hsegs
  cases joinSlash_getLast (cleanSegs (splitSeg [] p.data)) hinv with
  | inl hnil =>
    left
    show String.mk _ = _
    rw [show joinSlash (cleanSegs (splitSeg [] p.data)) = [] from hnil]
  | inr h =>
    right
    exact h

/-- C8 counterexample: a run given the scope argument "a/" (which ends
in a path separator) is not rejected: flagsToConfig silently normalizes
the argument through cleanPrefix to "a" and the run succeeds. -/
theorem claim_C8_counterexample :
    "a/".data.getLast? = some '/' ∧
    (["a/"].map cleanPrefix) = ["a"] ∧
    runPipeline ⟨false, true, fun _ => false, fun _ => false⟩ [] (fun _ => "")
      [] (["a/"].map cleanPrefix) =
      .ok ([], ⟨[], [], ⟨0, 0, 0, 0, 0⟩⟩) := by
  refine ⟨by decide, by decide, by decide⟩

/-- C8 amended: a trailing-separator scope argument is not treated as
invalid input: flagsToConfig maps every scope argument through
cleanPrefix, whose result never ends in a separator; the fatal
trailing-separator rejection exists only as the reconciler's internal
assertion on the scopes it is handed, which a normalized scope never
triggers. -/
theorem claim_C8 (cfg : config) (s : txState) (p pfx : String)
    (hne : pfx ≠ "") (hsl : pfx.data.getLast? = some '/') :
    (cleanPrefix p = "" ∨ (cleanPrefix p).data.getLast? ≠ some '/') ∧
    mustHandleDeletedFiles cfg s pfx =
      .error "prefix has a trailing slash" := by
  refine ⟨cleanPrefix_no_trailing p, ?_⟩
  unfold mustHandleDeletedFiles
  rw [beq_eq_false_iff_ne.mpr hne]
  simp only [Bool.false_eq_true, if_false]
  rw [show (pfx.data.getLast? == some '/') = true from beq_iff_eq.mpr hsl]
  simp

/-
Section 17: shape of the classifier's commands and output lines.
-/

theorem workerCmds_opTypes (cfg : config) (db : Db)
    (digest : String → String) :
    ∀ files, ∀ m ∈ (workerPhase cfg db digest files).cmds,
      m.opType = "I" ∨ m.opType = "U" ∨ m.opType = "M" := by
  intro files
  induction files with
  | nil => intro m hm; cases hm
  | cons f fs ih =>
    intro m hm
    have hm2 : m ∈ (checkOneFile cfg db digest f).cmd.toList ++
        (workerPhase cfg db digest fs).cmds := hm
    cases List.mem_append.mp hm2 with
    | inr h => exact ih m h
    | inl h =>
      rcases checkOneFile_cmd_cases cfg db digest f with
        hnone | ⟨i, hc, _, _⟩ | ⟨i, r, hc, _, _⟩ | ⟨i, r, hc, _, _⟩
      · rw [hnone] at h
        cases h
      · rw [hc] at h
        have hmi : m = ⟨"I", i⟩ := by simpa using h
        left
        rw [hmi]
      · rw [hc] at h
        have hmi : m = ⟨"U", i⟩ := by simpa using h
        right
        left
        rw [hmi]
      · rw [hc] at h
        have hmi : m = ⟨"M", i⟩ := by simpa using h
        right
        right
        rw [hmi]

theorem workerLines_shape (cfg : config) (db : Db)
    (digest : String → String) :
    ∀ files, ∀ l ∈ (workerPhase cfg db digest files).lines,
      ∃ x, l = "new: " ++ x ∨ l = "changed: " ++ x := by
  intro files
  induction files with
  | nil => intro l hl; cases hl
  | cons f fs ih =>
    intro l hl
    have hl2 : l ∈ stepLines f (checkOneFile cfg db digest f).res ++
        (workerPhase cfg db digest fs).lines := hl
    cases List.mem_append.mp hl2 with
    | inr h => exact ih l h
    | inl h =>
      cases hres : (checkOneFile cfg db digest f).res with
      | newFile =>
        rw [hres] at h
        have : l = "new: " ++ f.relPath := by simpa [stepLines] using h
        exact ⟨f.relPath, Or.inl this⟩
      | changedFile =>
        rw [hres] at h
        have : l = "changed: " ++ f.relPath := by simpa [stepLines] using h
        exact ⟨f.relPath, Or.inr this⟩
      | skipped =>
        rw [hres] at h
        cases h
      | unchangedFile =>
        rw [hres] at h
        cases h

theorem append_ne_of_head_ne (c1 c2 : Char) (t1 t2 a b : List Char)
    (h : c1 ≠ c2) : (c1 :: t1) ++ a ≠ (c2 :: t2) ++ b := by
  intro he
  rw [List.cons_append, List.cons_append] at he
  injection he with h1 _
  exact h h1

theorem deleted_ne_new (a b : String) : "deleted: " ++ a ≠ "new: " ++ b := by
  intro h
  have hd : ("deleted: " ++ a).data = ("new: " ++ b).data := by rw [h]
  rw [String.data_append, String.data_append] at hd
  exact append_ne_of_head_ne 'd' 'n'
    ['e', 'l', 'e', 't', 'e', 'd', ':', ' ']
    ['e', 'w', ':', ' '] a.data b.data (by decide) hd

theorem deleted_ne_changed (a b : String) :
    "deleted: " ++ a ≠ "changed: " ++ b := by
  intro h
  have hd : ("deleted: " ++ a).data = ("changed: " ++ b).data := by rw [h]
  rw [String.data_append, String.data_append] at hd
  exact append_ne_of_head_ne 'd' 'c'
    ['e', 'l', 'e', 't', 'e', 'd', ':', ' ']
    ['h', 'a', 'n', 'g', 'e', 'd', ':', ' '] a.data b.data (by decide) hd

theorem deleted_inj (x y : String)
    (h : "deleted: " ++ x = "deleted: " ++ y) : x = y := by
  have hd : ("deleted: " ++ x).data = ("deleted: " ++ y).data := by rw [h]
  rw [String.data_append, String.data_append] at hd
  have h2 := List.append_cancel_left hd
  cases x with
  | mk xd =>
    cases y with
    | mk yd => exact congrArg String.mk h2

/-- C9: in the assembled reconciler stream all classifier commands
(Insert, UpdateAndMark, Mark) precede all sweep signals, the reconciler
consumes the stream strictly first-in-first-out and drains it fully
before the commit-or-rollback decision, and consequently a discovered
non-excluded file is marked before any sweep runs and is never reported
as deleted in a successful persistence run. -/
theorem claim_C9 (cfg : config) (db0 : Db) (digest : String → String)
    (files : List fileCheckMsg) (pfxs : List String)
    (hn0 : dbNodup db0) (hu0 : allUnvisited db0) (hfn : filesNodup files)
    (hok : scopesOk (sweepScopes pfxs))
    (hdisj : scopesDisjoint (sweepScopes pfxs))
    (hcover : ∀ f ∈ files, shouldExcludePath cfg f.relPath = false →
      sweepAffectsAny (sweepScopes pfxs) f.relPath = true) :
    (∀ m ∈ (workerPhase cfg db0 digest files).cmds,
      m.opType = "I" ∨ m.opType = "U" ∨ m.opType = "M") ∧
    (∀ m ∈ sweepMsgs pfxs, m.opType = "D") ∧
    runPipeline cfg db0 digest files pfxs =
      dbUpdateWorker cfg db0 (workerPhase cfg db0 digest files).lines
        (workerPhase cfg db0 digest files).stats
        ((workerPhase cfg db0 digest files).cmds ++ sweepMsgs pfxs) ∧
    (∀ (s : txState) (a b : List dbUpdateMsg),
      processMsgs cfg s (a ++ b) =
        (processMsgs cfg s a) >>= fun s2 => processMsgs cfg s2 b) ∧
    (∀ f ∈ files, shouldExcludePath cfg f.relPath = false →
      ∃ out, runPipeline cfg db0 digest files pfxs = .ok out ∧
        ("deleted: " ++ f.relPath) ∉ out.2.lines) := by
  refine ⟨workerCmds_opTypes cfg db0 digest files, ?_, rfl,
    fun s a b => processMsgs_append cfg a b s, ?_⟩
  · intro m hm
    unfold sweepMsgs at hm
    by_cases h : pfxs.isEmpty = true
    · rw [if_pos h] at hm
      have hm2 : m = ⟨"D", ⟨"", 0, ""⟩⟩ := by simpa using hm
      rw [hm2]
    · rw [if_neg h] at hm
      obtain ⟨p, _, hp⟩ := List.mem_map.mp hm
      rw [← hp]
  · intro f hf hex
    obtain ⟨tx1, txF, hn1, hnF, hchar1, hrun, _, _⟩ :=
      runPipeline_spec cfg db0 digest files pfxs hn0 hu0 hfn hok hdisj hcover
    refine ⟨_, hrun, ?_⟩
    intro hmem
    have hmem2 : ("deleted: " ++ f.relPath) ∈
        (workerPhase cfg db0 digest files).lines ++
          ((sweepScopes pfxs).map fun p =>
            (sweepReportedPaths tx1 p).map
              (fun x => "deleted: " ++ x)).flatten := hmem
    cases List.mem_append.mp hmem2 with
    | inl h =>
      obtain ⟨x, hx⟩ := workerLines_shape cfg db0 digest files _ h
      cases hx with
      | inl h1 => exact deleted_ne_new f.relPath x h1
      | inr h1 => exact deleted_ne_changed f.relPath x h1
    | inr h =>
      obtain ⟨L, hL, hmemL⟩ := List.mem_flatten.mp h
      obtain ⟨p, hp, hLp⟩ := List.mem_map.mp hL
      rw [← hLp] at hmemL
      obtain ⟨x, hxrep, hxeq⟩ := List.mem_map.mp hmemL
      have hxf : x = f.relPath := deleted_inj x f.relPath hxeq
      obtain ⟨r, hfind, hunvis, _⟩ := (sweepReported_mem tx1 p hn1 x).mp hxrep
      rw [hxf] at hfind
      rw [hchar1 f.relPath] at hfind
      unfold workerView at hfind
      rw [files_find_of_mem files hfn f hf] at hfind
      simp only [hex, Bool.false_eq_true, if_false] at hfind
      have hv := touchRow_no_unvis cfg db0 digest f hex r hfind
      rw [hv] at hunvis
      cases hunvis

/-
Section 18: idempotence of a persistence run.
-/

theorem classifyRes_excluded (cfg : config) (db : Db)
    (digest : String → String) (m : fileCheckMsg)
    (hex : shouldExcludePath cfg m.relPath = true) :
    classifyRes cfg db digest m = .skipped := by
  unfold classifyRes
  rw [if_pos hex]

theorem countClass_zero (cfg : config) (db : Db) (digest : String → String)
    (files : List fileCheckMsg) (t : checkResult)
    (h : ∀ f ∈ files, classifyRes cfg db digest f ≠ t) :
    countClass cfg db digest files t = 0 := by
  unfold countClass
  rw [List.length_eq_zero, List.filter_eq_nil_iff]
  intro f hf
  simp [h f hf]

/-- Every non-excluded discovered file compares clean against the
committed catalog of a covering persistence run. -/
theorem committed_classify (cfg : config) (db0 : Db)
    (digest : String → String) (files : List fileCheckMsg)
    (ps : List String) (tx1 txF : Db)
    (hu : cfg.update = true) (hfn : filesNodup files)
    (hchar1 : ∀ x, dbFind tx1 x = workerView cfg db0 digest files x)
    (hupdF : ∀ x, dbFind txF x =
      (match dbFind tx1 x with
       | none => none
       | some r =>
         if sweepAffectsAny ps x then
           (if r.visited then some { r with visited := false } else none)
         else some r))
    (hcover : ∀ f ∈ files, shouldExcludePath cfg f.relPath = false →
      sweepAffectsAny ps f.relPath = true) :
    ∀ f ∈ files, shouldExcludePath cfg f.relPath = false →
      classifyRes cfg txF digest f = .unchangedFile := by
  intro f hf hex
  obtain ⟨r, htr, hv, hpath, hsize, hck⟩ :=
    touchRow_fields cfg db0 digest f hu hex
  have hfind1 : dbFind tx1 f.relPath = some r := by
    rw [hchar1 f.relPath]
    unfold workerView
    rw [files_find_of_mem files hfn f hf]
    simp only [hex, Bool.false_eq_true, if_false]
    exact htr
  have haff := hcover f hf hex
  have hfindF : dbFind txF f.relPath = some { r with visited := false } := by
    rw [hupdF f.relPath, hfind1]
    rw [haff]
    simp [hv]
  unfold classifyRes mustQueryFile
  rw [hfindF]
  simp only [hex, Bool.false_eq_true, if_false]
  have hsz : (({ r with visited := false } : fileRow).size != f.size) =
      false := by
    show (r.size != f.size) = false
    rw [hsize]
    simp
  by_cases hso : cfg.sizeOnly = true
  · simp [hsz, hso]
  · have hso' : cfg.sizeOnly = false := by
      cases h : cfg.sizeOnly
      · rfl
      · exact absurd h hso
    have hcks : ({ r with visited := false } : fileRow).checksum.getD "" =
        mustCalcChecksum digest f.relPath false := hck hso'
    simp [hsz, hso', hcks]

/-- After a covering persistence run, a second identical scan marks every
in-scope catalog row again, so its sweeps find nothing to report. -/
theorem secondRun_reported_empty (cfg : config) (db0 : Db)
    (digest : String → String) (files : List fileCheckMsg)
    (ps : List String) (tx1 txF tx1' : Db)
    (hu0 : allUnvisited db0) (hfn : filesNodup files)
    (hn1' : dbNodup tx1')
    (hchar1 : ∀ x, dbFind tx1 x = workerView cfg db0 digest files x)
    (hupdF : ∀ x, dbFind txF x =
      (match dbFind tx1 x with
       | none => none
       | some r =>
         if sweepAffectsAny ps x then
           (if r.visited then some { r with visited := false } else none)
         else some r))
    (hchar1' : ∀ x, dbFind tx1' x = workerView cfg txF digest files x) :
    ∀ p ∈ ps, sweepReportedPaths tx1' p = [] := by
  intro p hp
  rw [List.eq_nil_iff_forall_not_mem]
  intro x hx
  obtain ⟨r, hfind, hunvis, haffp⟩ := (sweepReported_mem tx1' p hn1' x).mp hx
  have hany : sweepAffectsAny ps x = true :=
    List.any_eq_true.mpr ⟨p, hp, haffp⟩
  have hvisited_discovered : ∀ r0 : fileRow, dbFind tx1 x = some r0 →
      r0.visited = true →
      ∃ f2 ∈ files, f2.relPath = x ∧
        shouldExcludePath cfg f2.relPath = false := by
    intro r0 hf1 hv0
    rw [hchar1 x] at hf1
    exact workerView_visited cfg db0 digest files hu0 x r0 hf1 hv0
  rw [hchar1' x] at hfind
  unfold workerView at hfind
  cases hfq : files.find? (fun g => g.relPath == x) with
  | some f =>
    rw [hfq] at hfind
    by_cases hex : shouldExcludePath cfg f.relPath = true
    · simp only [hex, if_true] at hfind
      rw [hupdF x] at hfind
      cases hf1 : dbFind tx1 x with
      | none =>
        rw [hf1] at hfind
        cases hfind
      | some r0 =>
        rw [hf1, hany] at hfind
        cases hv0 : r0.visited with
        | false =>
          simp [hv0] at hfind
        | true =>
          obtain ⟨f2, hf2mem, hf2x, hf2ex⟩ :=
            hvisited_discovered r0 hf1 hv0
          have hfound2 := files_find_of_mem files hfn f2 hf2mem
          rw [hf2x] at hfound2
          rw [hfq] at hfound2
          injection hfound2 with hff
          rw [← hff] at hf2ex
          rw [hf2ex] at hex
          cases hex
    · have hex' : shouldExcludePath cfg f.relPath = false := by
        cases h : shouldExcludePath cfg f.relPath
        · rfl
        · exact absurd h hex
      simp only [hex', Bool.false_eq_true, if_false] at hfind
      have hv := touchRow_no_unvis cfg txF digest f hex' r hfind
      rw [hv] at hunvis
      cases hunvis
  | none =>
    rw [hfq] at hfind
    rw [hupdF x] at hfind
    cases hf1 : dbFind tx1 x with
    | none =>
      rw [hf1] at hfind
      cases hfind
    | some r0 =>
      rw [hf1, hany] at hfind
      cases hv0 : r0.visited with
      | false =>
        simp [hv0] at hfind
      | true =>
        obtain ⟨f2, hf2mem, hf2x, _⟩ := hvisited_discovered r0 hf1 hv0
        have := List.find?_eq_none.mp hfq f2 hf2mem
        rw [hf2x] at this
        simp at this

/-- C6: idempotence.  Under the run hypotheses, a persistence run
followed by a second identical run over the committed catalog yields
zero NEW, zero CHANGED and zero DELETED classifications on the second
run: every path compares equal to its committed entry, whose visited
flag was cleared at the end of the first run, and the second sweep finds
no unvisited entry in scope. -/
theorem claim_C6 (cfg : config) (db0 : Db) (digest : String → String)
    (files : List fileCheckMsg) (pfxs : List String)
    (hu : cfg.update = true)
    (hn0 : dbNodup db0) (hu0 : allUnvisited db0) (hfn : filesNodup files)
    (hok : scopesOk (sweepScopes pfxs))
    (hdisj : scopesDisjoint (sweepScopes pfxs))
    (hcover : ∀ f ∈ files, shouldExcludePath cfg f.relPath = false →
      sweepAffectsAny (sweepScopes pfxs) f.relPath = true) :
    ∃ db1 s1 out2,
      runPipeline cfg db0 digest files pfxs = .ok (db1, s1) ∧
      runPipeline cfg db1 digest files pfxs = .ok out2 ∧
      out2.2.stats.numFilesNew = 0 ∧
      out2.2.stats.numFilesChanged = 0 ∧
      out2.2.stats.numFilesDeleted = 0 := by
  obtain ⟨tx1, txF, hn1, hnF, hchar1, hrun1, _, hupdF⟩ :=
    runPipeline_spec cfg db0 digest files pfxs hn0 hu0 hfn hok hdisj hcover
  have hupdF' := hupdF hu
  have hcoverVis : ∀ r ∈ tx1, r.visited = true →
      sweepAffectsAny (sweepScopes pfxs) r.path = true := by
    intro r hr hv
    have hfind : dbFind tx1 r.path = some r := dbFind_of_mem hn1 hr
    rw [hchar1 r.path] at hfind
    obtain ⟨f, hfmem, hfx, hfex⟩ :=
      workerView_visited cfg db0 digest files hu0 r.path r hfind hv
    rw [← hfx]
    exact hcover f hfmem hfex
  have huF : allUnvisited txF :=
    committed_allUnvisited (sweepScopes pfxs) tx1 txF hnF hcoverVis hupdF'
  obtain ⟨tx1', txF', hn1', hnF', hchar1', hrun2, _, _⟩ :=
    runPipeline_spec cfg txF digest files pfxs hnF huF hfn hok hdisj hcover
  rw [if_pos hu] at hrun1 hrun2
  have hclassify := committed_classify cfg db0 digest files
    (sweepScopes pfxs) tx1 txF hu hfn hchar1 hupdF' hcover
  have hnotres : ∀ t : checkResult, t ≠ .skipped → t ≠ .unchangedFile →
      ∀ f ∈ files, classifyRes cfg txF digest f ≠ t := by
    intro t hts htu f hf
    by_cases hex : shouldExcludePath cfg f.relPath = true
    · rw [classifyRes_excluded cfg txF digest f hex]
      exact fun h => hts h.symm
    · have hex' : shouldExcludePath cfg f.relPath = false := by
        cases h : shouldExcludePath cfg f.relPath
        · rfl
        · exact absurd h hex
      rw [hclassify f hf hex']
      exact fun h => htu h.symm
  have hrep0 := secondRun_reported_empty cfg db0 digest files
    (sweepScopes pfxs) tx1 txF tx1' hu0 hfn hn1' hchar1 hupdF' hchar1'
  refine ⟨txF, _, _, hrun1, hrun2, ?_, ?_, ?_⟩
  · show ((countClass cfg txF digest files .newFile : Nat) : Int) = 0
    rw [countClass_zero cfg txF digest files .newFile
      (hnotres .newFile (by simp) (by simp))]
    rfl
  · show ((countClass cfg txF digest files .changedFile : Nat) : Int) = 0
    rw [countClass_zero cfg txF digest files .changedFile
      (hnotres .changedFile (by simp) (by simp))]
    rfl
  · show ((((sweepScopes pfxs).map fun p =>
      (sweepReportedPaths tx1' p).length).sum : Nat) : Int) = 0
    have hmap0 : ((sweepScopes pfxs).map fun p =>
        (sweepReportedPaths tx1' p).length) =
        (sweepScopes pfxs).map fun _ => 0 :=
      List.map_congr_left fun p hp => by rw [hrep0 p hp]; rfl
    rw [hmap0]
    have : ((sweepScopes pfxs).map fun _ => (0 : Nat)).sum = 0 := by
      induction sweepScopes pfxs with
      | nil => rfl
      | cons a l ih => simp [ih]
    rw [this]
    rfl

theorem claim_C1_witness :
    (checkOneFile cfgW [] digestW ⟨"a", 1⟩).res = .newFile ∧
    (checkOneFile cfgW [] digestW ⟨"a", 1⟩).cmd =
      some ⟨"I", ⟨"a", 1, mustCalcChecksum digestW "a" false⟩⟩ := by
  have h := claim_C1 cfgW [] digestW ⟨"a", 1⟩ (by decide) rfl
  have h1 := h.1 rfl
  refine ⟨h1.1, ?_⟩
  rw [h1.2]
  rfl

theorem claim_C2_amended_witness :
    (∀ q x : String, likeHit q x = ciPrefixOf q.data x.data) ∧
    ∃ tx2 lines2 stats2,
      mustHandleDeletedFiles cfgW
        ⟨[⟨"ab", 1, none, false⟩], [], clearStats⟩ "ab" =
        .ok ⟨tx2, lines2, stats2⟩ ∧
      ∀ x, dbFind tx2 x =
        (match dbFind [⟨"ab", 1, none, false⟩] x with
         | none => none
         | some r =>
           if (x == "ab" || ciPrefixOf ("ab" ++ "/").data x.data) then
             (if r.visited then some { r with visited := false } else none)
           else some r) :=
  claim_C2_amended cfgW ⟨[⟨"ab", 1, none, false⟩], [], clearStats⟩ "ab"
    (by unfold dbNodup dbPaths; decide) (by decide) (by decide) rfl

theorem claim_C3_witness :
    ∃ outU outD,
      runPipeline { cfgW3 with update := true }
        [⟨"old", 1, none, false⟩] digestW [⟨"a", 5⟩] [] = .ok outU ∧
      runPipeline { cfgW3 with update := false }
        [⟨"old", 1, none, false⟩] digestW [⟨"a", 5⟩] [] = .ok outD ∧
      outD.2.lines = outU.2.lines ∧
      outD.1 = [⟨"old", 1, none, false⟩] ∧
      outD.2.stats.numVisitedFlagsCleared = 0 :=
  claim_C3 cfgW3 [⟨"old", 1, none, false⟩] digestW [⟨"a", 5⟩] []
    (by unfold dbNodup dbPaths; decide) (by unfold allUnvisited; decide)
    (by unfold filesNodup; decide) (by unfold scopesOk sweepScopes; decide)
    (by simp [scopesDisjoint, sweepScopes]) (by decide)

theorem claim_C5_witness :
    (checkOneFile cfgWS [⟨"a", 5, some "zz", false⟩] digestW ⟨"a", 5⟩).res =
      .unchangedFile ∧
    stepLines ⟨"a", 5⟩ .unchangedFile = [] ∧
    ((("zz" != "") && cfgWS.update) = true →
      (checkOneFile cfgWS [⟨"a", 5, some "zz", false⟩] digestW ⟨"a", 5⟩).cmd =
        some ⟨"U", ⟨"a", 5, ""⟩⟩ ∧
      storedChecksum "" = none ∧
      (∀ tx r, dbNodup tx → dbFind tx "a" = some r →
        mustUpdateAndMarkFile tx ⟨"a", 5, ""⟩ =
          .ok (tx.map (updRow ⟨"a", 5, ""⟩)) ∧
        dbFind (tx.map (updRow ⟨"a", 5, ""⟩)) "a" =
          some { r with size := 5, checksum := none, visited := true })) ∧
    ((("zz" != "") && cfgWS.update) = false →
      (checkOneFile cfgWS [⟨"a", 5, some "zz", false⟩] digestW ⟨"a", 5⟩).cmd =
        some ⟨"M", ⟨"a", 5, ""⟩⟩ ∧
      (∀ rr : fileRow, (markRow "a" rr).size = rr.size ∧
        (markRow "a" rr).checksum = rr.checksum)) :=
  claim_C5 cfgWS [⟨"a", 5, some "zz", false⟩] digestW ⟨"a", 5⟩
    ⟨"a", 5, "zz"⟩ false (by decide) rfl rfl (by decide)

theorem claim_C7_witness :
    (∀ r, dbFind [⟨"p", 1, none, false⟩] "p" = some r → r.visited = false →
      mustMarkFile [⟨"p", 1, none, false⟩] "p" =
        .ok ([⟨"p", 1, none, false⟩].map (markRow "p")) ∧
      dbFind ([⟨"p", 1, none, false⟩].map (markRow "p")) "p" =
        some { r with visited := true } ∧
      (∀ y, y ≠ "p" → dbFind ([⟨"p", 1, none, false⟩].map (markRow "p")) y =
        dbFind [⟨"p", 1, none, false⟩] y) ∧
      mustMarkFile ([⟨"p", 1, none, false⟩].map (markRow "p")) "p" =
        .error "mark: RowsAffected should be 1") ∧
    (dbFind [⟨"p", 1, none, false⟩] "p" = none →
      mustMarkFile [⟨"p", 1, none, false⟩] "p" =
        .error "mark: RowsAffected should be 1") ∧
    (∀ r, dbFind [⟨"p", 1, none, false⟩] "p" = some r → r.visited = true →
      mustMarkFile [⟨"p", 1, none, false⟩] "p" =
        .error "mark: RowsAffected should be 1") :=
  claim_C7 [⟨"p", 1, none, false⟩] "p" (by unfold dbNodup dbPaths; decide)

theorem claim_C8_witness :
    (cleanPrefix "b/c/../d" = "" ∨
      (cleanPrefix "b/c/../d").data.getLast? ≠ some '/') ∧
    mustHandleDeletedFiles cfgW ⟨[], [], clearStats⟩ "x/" =
      .error "prefix has a trailing slash" :=
  claim_C8 cfgW ⟨[], [], clearStats⟩ "b/c/../d" "x/" (by decide) (by decide)

theorem claim_C10_witness :
    shouldExcludePath (autoConfig false true "checksum.db") "checksum.db" =
      true ∧
    (checkOneFile (autoConfig false true "checksum.db") [] digestW
      ⟨"checksum.db", 7⟩).res = .skipped ∧
    (checkOneFile (autoConfig false true "checksum.db") [] digestW
      ⟨"checksum.db", 7⟩).cmd = none ∧
    stepLines ⟨"checksum.db", 7⟩ .skipped = [] ∧
    stepStats clearStats .skipped = clearStats ∧
    (workerPhase (autoConfig false true "checksum.db") [] digestW
      [⟨"checksum.db", 7⟩]).cmds = [] :=
  claim_C10 false true "checksum.db" [] digestW ⟨"checksum.db", 7⟩
    clearStats rfl (by decide)

theorem claim_C6_witness :
    ∃ db1 s1 out2,
      runPipeline cfgW [⟨"old", 1, none, false⟩] digestW [⟨"a", 5⟩] [] =
        .ok (db1, s1) ∧
      runPipeline cfgW db1 digestW [⟨"a", 5⟩] [] = .ok out2 ∧
      out2.2.stats.numFilesNew = 0 ∧
      out2.2.stats.numFilesChanged = 0 ∧
      out2.2.stats.numFilesDeleted = 0 :=
  claim_C6 cfgW [⟨"old", 1, none, false⟩] digestW [⟨"a", 5⟩] [] rfl
    (by unfold dbNodup dbPaths; decide) (by unfold allUnvisited; decide)
    (by unfold filesNodup; decide) (by unfold scopesOk sweepScopes; decide)
    (by simp [scopesDisjoint, sweepScopes]) (by decide)

theorem claim_C9_witness :
    (∀ m ∈ (workerPhase cfgW [⟨"old", 1, none, false⟩] digestW
        [⟨"a", 5⟩]).cmds,
      m.opType = "I" ∨ m.opType = "U" ∨ m.opType = "M") ∧
    (∀ m ∈ sweepMsgs [], m.opType = "D") ∧
    runPipeline cfgW [⟨"old", 1, none, false⟩] digestW [⟨"a", 5⟩] [] =
      dbUpdateWorker cfgW [⟨"old", 1, none, false⟩]
        (workerPhase cfgW [⟨"old", 1, none, false⟩] digestW [⟨"a", 5⟩]).lines
        (workerPhase cfgW [⟨"old", 1, none, false⟩] digestW [⟨"a", 5⟩]).stats
        ((workerPhase cfgW [⟨"old", 1, none, false⟩] digestW
          [⟨"a", 5⟩]).cmds ++ sweepMsgs []) ∧
    (∀ (s : txState) (a b : List dbUpdateMsg),
      processMsgs cfgW s (a ++ b) =
        (processMsgs cfgW s a) >>= fun s2 => processMsgs cfgW s2 b) ∧
    (∀ f ∈ [(⟨"a", 5⟩ : fileCheckMsg)],
      shouldExcludePath cfgW f.relPath = false →
      ∃ out, runPipeline cfgW [⟨"old", 1, none, false⟩] digestW
          [⟨"a", 5⟩] [] = .ok out ∧
        ("deleted: " ++ f.relPath) ∉ out.2.lines) :=
  claim_C9 cfgW [⟨"old", 1, none, false⟩] digestW [⟨"a", 5⟩] []
    (by unfold dbNodup dbPaths; decide) (by unfold allUnvisited; decide)
    (by unfold filesNodup; decide) (by unfold scopesOk sweepScopes; decide)
    (by simp [scopesDisjoint, sweepScopes]) (by decide)
